import Mathlib

/-!
# Formal model of the `ai-assert-schema` constraint engine

A shallow embedding of the schema-constraint traversal engine
(`src/constraints/validate.ts`) and the provider registry
(`src/constraints/registry.ts`) of the `ai-assert-schema` repository,
together with the built-in provider rule sets
(`src/constraints/openai/openai.ts`, `src/constraints/anthropic/anthropic.ts`,
`src/constraints/google/google.ts`).

A schema document is modelled as a store of object nodes indexed by `Nat`;
the index plays the role of JavaScript object identity (the engine's cycle
detection uses a `WeakSet` keyed by reference identity).  Keyword values
that can be either absent or present are `Option`s, so that a present falsy
value (such as `minItems: 0`) is distinguished from an absent keyword, as
the source does with `!== undefined` checks.  The recursion of
`traverseSchema` is driven by explicit fuel; the top-level entry point
supplies `store.length + 1` units, which is proved sufficient below.

The traversal state is instrumented with a `reencounters` field recording
the path of every re-encounter of an already-visited node; it feeds only
the specifications below and has no influence on the issue output.
-/

namespace AiAssertSchema

/-- A JSON primitive value as it appears in a rule's `allowedValues`
allow-list or as an `enum` member; `complex` stands for any non-null value
of object or array type (`typeof val === 'object'`). -/
inductive JsonPrim where
  | str (s : String)
  | num (n : Int)
  | bool (b : Bool)
  | null
  | complex
  deriving DecidableEq, Repr

/-- A reference to a sub-schema position: an object node (identified by its
index in the store) or a boolean schema. -/
inductive SchemaRef where
  | obj (id : Nat)
  | bool (b : Bool)
  deriving DecidableEq, Repr

/-- The value of the `items` keyword: a single schema value, or an array of
schema values (draft-07 tuple form). -/
inductive ItemsVal where
  | single (r : SchemaRef)
  | list (rs : List SchemaRef)
  deriving DecidableEq, Repr

/-- One JSON-Schema object node, with exactly the attributes read by the
traversal engine.  `notSchema`, `ifSchema`, `thenSchema`, `elseSchema` and
`defs` model the `not`, `if`, `then`, `else` and `$defs` keywords (renamed
because of Lean keywords); `enumVals` models `enum`.  The purely
presence-checked object-valued keywords (`dependentRequired`,
`dependentSchemas`, `patternProperties`, `propertyNames`, `contains`) are
`Bool`s meaning "present and truthy". -/
structure SchemaNode where
  type : Option String := none
  properties : Option (List (String × SchemaRef)) := none
  required : Option (List String) := none
  additionalProperties : Option SchemaRef := none
  items : Option ItemsVal := none
  prefixItems : Option (List SchemaRef) := none
  allOf : Option (List SchemaRef) := none
  anyOf : Option (List SchemaRef) := none
  oneOf : Option (List SchemaRef) := none
  notSchema : Option SchemaRef := none
  ifSchema : Option SchemaRef := none
  thenSchema : Option SchemaRef := none
  elseSchema : Option SchemaRef := none
  dependentRequired : Bool := false
  dependentSchemas : Bool := false
  patternProperties : Bool := false
  propertyNames : Bool := false
  contains : Bool := false
  uniqueItems : Option Bool := none
  minItems : Option Int := none
  maxItems : Option Int := none
  minimum : Option Int := none
  maximum : Option Int := none
  exclusiveMinimum : Option Int := none
  exclusiveMaximum : Option Int := none
  multipleOf : Option Int := none
  minLength : Option Int := none
  maxLength : Option Int := none
  pattern : Option String := none
  format : Option String := none
  defs : Option (List (String × SchemaRef)) := none
  definitions : Option (List (String × SchemaRef)) := none
  enumVals : Option (List JsonPrim) := none
  deriving DecidableEq, Repr

/-- An issue found during validation (`types.ts`, `ValidationIssue`). -/
structure ValidationIssue where
  path : List String
  feature : String
  message : String
  deriving DecidableEq, Repr

/-- Where in the schema tree a rule applies (`types.ts`, `FeatureContext`). -/
inductive FeatureContext where
  | root
  | nested
  | any
  deriving DecidableEq, Repr

/-- A constraint rule (`types.ts`, `ConstraintRule`): either a simple rule
with an optional message and optional allow-list, or a custom rule carrying
a validate function. -/
inductive ConstraintRule where
  | simple (feature : String) (context : Option FeatureContext)
      (message : Option String) (allowedValues : Option (List JsonPrim))
  | custom (feature : String) (context : Option FeatureContext)
      (validate : SchemaNode → List String → Bool → List ValidationIssue)

/-- `rule.feature` of either variant. -/
def ConstraintRule.feature : ConstraintRule → String
  | .simple f _ _ _ => f
  | .custom f _ _ => f

/-- `rule.context` of either variant. -/
def ConstraintRule.context : ConstraintRule → Option FeatureContext
  | .simple _ c _ _ => c
  | .custom _ c _ => c

/-- `rule.message`: custom rules have no message field, so reading it on a
custom rule yields `undefined` (`none`). -/
def ConstraintRule.message : ConstraintRule → Option String
  | .simple _ _ m _ => m
  | .custom _ _ _ => none

/-- A named custom validator (`types.ts`, `CustomValidator`). -/
structure CustomValidator where
  name : String
  validate : SchemaNode → List String → Bool → List ValidationIssue

/-- Constraints resolved for a provider/model pair
(`types.ts`, `ResolvedConstraints`). -/
structure ResolvedConstraints where
  provider : String
  modelId : String
  unsupported : List ConstraintRule
  customValidators : List CustomValidator
  jsonSchemaTarget : Option String := none

/-- A schema document: object nodes addressed by index.  The index is the
node's identity. -/
abbrev SchemaStore := List SchemaNode

/-- `isFeatureUnsupported` (validate.ts, lines 181-192): a feature is
unsupported when some rule names it and either the rule has no context (or
context `any`), or the caller supplied no context, or the contexts agree. -/
def isFeatureUnsupported (feature : String) (rules : List ConstraintRule)
    (currentContext : Option FeatureContext) : Bool :=
  rules.any fun rule =>
    if rule.feature != feature then false
    else
      match rule.context with
      | none => true
      | some .any => true
      | some rctx =>
        match currentContext with
        | none => true
        | some c => rctx == c

/-- `getFeatureMessage` (validate.ts, lines 194-201): the message of the
first rule naming the feature, falling back to the default when absent or
empty (`rule?.message || defaultMessage`). -/
def getFeatureMessage (feature : String) (rules : List ConstraintRule)
    (defaultMessage : String) : String :=
  match rules.find? (fun r => r.feature == feature) with
  | some r =>
    match r.message with
    | some m => if m == "" then defaultMessage else m
    | none => defaultMessage
  | none => defaultMessage

/-- JavaScript truthiness of a sub-schema value: objects are truthy,
booleans are their own truth value. -/
def SchemaRef.truthy : SchemaRef → Bool
  | .obj _ => true
  | .bool b => b

/-- Truthiness of an optional sub-schema value (absent = `undefined`). -/
def optRefTruthy : Option SchemaRef → Bool
  | none => false
  | some r => r.truthy

/-- Truthiness of the `items` keyword value; an array (even empty) is
truthy. -/
def itemsTruthy : Option ItemsVal → Bool
  | none => false
  | some (.single r) => r.truthy
  | some (.list _) => true

/-- `checkCompositionKeywords` (validate.ts, lines 203-266), returning the
issues it would push, in order. -/
def checkCompositionKeywords (node : SchemaNode) (rules : List ConstraintRule)
    (path : List String) (isRoot : Bool) : List ValidationIssue :=
  let context : FeatureContext := if isRoot then .root else .nested
  (if node.allOf.isSome && isFeatureUnsupported "allOf" rules (some context) then
    [⟨path, "allOf", getFeatureMessage "allOf" rules "allOf is not supported"⟩]
  else []) ++
  (if node.anyOf.isSome then
    if isRoot && isFeatureUnsupported "rootAnyOf" rules (some .root) then
      [⟨path, "rootAnyOf",
        getFeatureMessage "rootAnyOf" rules "anyOf is not supported at root level"⟩]
    else if !isRoot && isFeatureUnsupported "anyOf" rules (some context) then
      [⟨path, "anyOf", getFeatureMessage "anyOf" rules "anyOf is not supported"⟩]
    else []
  else []) ++
  (if node.oneOf.isSome then
    if isRoot && isFeatureUnsupported "rootOneOf" rules (some .root) then
      [⟨path, "rootOneOf",
        getFeatureMessage "rootOneOf" rules "oneOf is not supported at root level"⟩]
    else if isFeatureUnsupported "oneOf" rules (some context) then
      [⟨path, "oneOf", getFeatureMessage "oneOf" rules "oneOf is not supported"⟩]
    else []
  else []) ++
  (if optRefTruthy node.notSchema && isFeatureUnsupported "not" rules (some context) then
    [⟨path, "not", getFeatureMessage "not" rules "not is not supported"⟩]
  else [])

/-- `checkConditionalKeywords` (validate.ts, lines 268-313); these checks
pass no context to `isFeatureUnsupported`. -/
def checkConditionalKeywords (node : SchemaNode) (rules : List ConstraintRule)
    (path : List String) : List ValidationIssue :=
  (if optRefTruthy node.ifSchema && isFeatureUnsupported "if" rules none then
    [⟨path, "if",
      getFeatureMessage "if" rules "if/then/else conditionals are not supported"⟩]
  else []) ++
  (if node.dependentRequired && isFeatureUnsupported "dependentRequired" rules none then
    [⟨path, "dependentRequired",
      getFeatureMessage "dependentRequired" rules "dependentRequired is not supported"⟩]
  else []) ++
  (if node.dependentSchemas && isFeatureUnsupported "dependentSchemas" rules none then
    [⟨path, "dependentSchemas",
      getFeatureMessage "dependentSchemas" rules "dependentSchemas is not supported"⟩]
  else [])

/-- One keyword of `checkValidationKeywords`: flagged when the keyword is
defined (`!== undefined`) and unsupported; no context is passed. -/
def keywordCheck (present : Bool) (kw : String) (rules : List ConstraintRule)
    (path : List String) : List ValidationIssue :=
  if present && isFeatureUnsupported kw rules none then
    [⟨path, kw, getFeatureMessage kw rules (kw ++ " is not supported")⟩]
  else []

/-- `checkValidationKeywords` (validate.ts, lines 315-354): the fixed list
of numeric keywords followed by the fixed list of string keywords. -/
def checkValidationKeywords (node : SchemaNode) (rules : List ConstraintRule)
    (path : List String) : List ValidationIssue :=
  keywordCheck node.minimum.isSome "minimum" rules path ++
  keywordCheck node.maximum.isSome "maximum" rules path ++
  keywordCheck node.exclusiveMinimum.isSome "exclusiveMinimum" rules path ++
  keywordCheck node.exclusiveMaximum.isSome "exclusiveMaximum" rules path ++
  keywordCheck node.multipleOf.isSome "multipleOf" rules path ++
  keywordCheck node.minLength.isSome "minLength" rules path ++
  keywordCheck node.maxLength.isSome "maxLength" rules path ++
  keywordCheck node.pattern.isSome "pattern" rules path ++
  keywordCheck node.format.isSome "format" rules path

/-- `checkObjectConstraints` (validate.ts, lines 356-386). -/
def checkObjectConstraints (node : SchemaNode) (rules : List ConstraintRule)
    (path : List String) : List ValidationIssue :=
  (if node.patternProperties && isFeatureUnsupported "patternProperties" rules none then
    [⟨path, "patternProperties",
      getFeatureMessage "patternProperties" rules "patternProperties is not supported"⟩]
  else []) ++
  (if node.propertyNames && isFeatureUnsupported "propertyNames" rules none then
    [⟨path, "propertyNames",
      getFeatureMessage "propertyNames" rules "propertyNames is not supported"⟩]
  else [])

/-- `checkArrayConstraints` (validate.ts, lines 388-439).  Note that
`minItems` and `maxItems` are flagged purely on definedness; the rule's
`allowedValues` list is not consulted anywhere. -/
def checkArrayConstraints (node : SchemaNode) (rules : List ConstraintRule)
    (path : List String) : List ValidationIssue :=
  (if node.prefixItems.isSome && isFeatureUnsupported "prefixItems" rules none then
    [⟨path, "prefixItems",
      getFeatureMessage "prefixItems" rules "prefixItems is not supported"⟩]
  else []) ++
  (if node.contains && isFeatureUnsupported "contains" rules none then
    [⟨path, "contains", getFeatureMessage "contains" rules "contains is not supported"⟩]
  else []) ++
  (if node.uniqueItems == some true && isFeatureUnsupported "uniqueItems" rules none then
    [⟨path, "uniqueItems",
      getFeatureMessage "uniqueItems" rules "uniqueItems is not supported"⟩]
  else []) ++
  (if node.minItems.isSome && isFeatureUnsupported "minItems" rules none then
    [⟨path, "minItems", getFeatureMessage "minItems" rules "minItems is not supported"⟩]
  else []) ++
  (if node.maxItems.isSome && isFeatureUnsupported "maxItems" rules none then
    [⟨path, "maxItems", getFeatureMessage "maxItems" rules "maxItems is not supported"⟩]
  else [])

/-- Guard of the object-specific branch:
`schema.type === 'object' || schema.properties`. -/
def isObjectLike (node : SchemaNode) : Bool :=
  node.type == some "object" || node.properties.isSome

/-- Guard of the array-specific branch:
`schema.type === 'array' || schema.items`. -/
def isArrayLike (node : SchemaNode) : Bool :=
  node.type == some "array" || itemsTruthy node.items

/-- One step of the per-node work of `traverseSchema`: either a batch of
issues appended to the sink, or a recursive descent into a child node
(relative path segments plus node identity). -/
inductive TravStep where
  | emit (issues : List ValidationIssue)
  | visit (relPath : List String) (id : Nat)

/-- The node identity behind a reference, if it is an object. -/
def SchemaRef.objId : SchemaRef → Option Nat
  | .obj id => some id
  | .bool _ => none

/-- Descents into `properties` entries: only object-valued properties are
recursed into, path extended by `properties`, key. -/
def propertyVisits (node : SchemaNode) : List TravStep :=
  match node.properties with
  | none => []
  | some props => props.filterMap fun kv =>
      kv.2.objId.map fun id => TravStep.visit ["properties", kv.1] id

/-- Descent into `additionalProperties` when it is a schema object. -/
def additionalPropertiesVisits (node : SchemaNode) : List TravStep :=
  match node.additionalProperties with
  | some (.obj id) => [TravStep.visit ["additionalProperties"] id]
  | _ => []

/-- Descents into `items`: a single object schema (path `items`) or each
object element of an array (path `items`, index). -/
def itemsVisits (node : SchemaNode) : List TravStep :=
  match node.items with
  | none => []
  | some (.single (.obj id)) => [TravStep.visit ["items"] id]
  | some (.single (.bool _)) => []
  | some (.list rs) => rs.enum.filterMap fun ir =>
      ir.2.objId.map fun id => TravStep.visit ["items", toString ir.1] id

/-- Descents into each object element of `prefixItems`. -/
def prefixItemsVisits (node : SchemaNode) : List TravStep :=
  match node.prefixItems with
  | none => []
  | some rs => rs.enum.filterMap fun ir =>
      ir.2.objId.map fun id => TravStep.visit ["prefixItems", toString ir.1] id

/-- Descents into each object element of a composition keyword
(`allOf`/`anyOf`/`oneOf`). -/
def compositionVisits (kw : String) (o : Option (List SchemaRef)) : List TravStep :=
  match o with
  | none => []
  | some rs => rs.enum.filterMap fun ir =>
      ir.2.objId.map fun id => TravStep.visit [kw, toString ir.1] id

/-- Descent into a conditional keyword (`if`/`then`/`else`) when it is a
truthy object. -/
def conditionalVisit (kw : String) (o : Option SchemaRef) : List TravStep :=
  match o with
  | some (.obj id) => [TravStep.visit [kw] id]
  | _ => []

/-- Descents into `$defs` or, only when `$defs` is absent, `definitions`
(`schema.$defs || schema.definitions`, path keyword chosen by
`schema.$defs ? '$defs' : 'definitions'`). -/
def defsVisits (node : SchemaNode) : List TravStep :=
  match node.defs with
  | some d => d.filterMap fun kv =>
      kv.2.objId.map fun id => TravStep.visit ["$defs", kv.1] id
  | none =>
    match node.definitions with
    | some d => d.filterMap fun kv =>
        kv.2.objId.map fun id => TravStep.visit ["definitions", kv.1] id
    | none => []

/-- Running every registered custom validator, in order, on the node
(validate.ts, lines 174-178). -/
def runCustomValidators (validators : List CustomValidator) (node : SchemaNode)
    (path : List String) (isRoot : Bool) : List ValidationIssue :=
  validators.foldl (fun acc v => acc ++ v.validate node path isRoot) []

/-- The per-node work of `traverseSchema` (validate.ts, lines 54-178) as an
ordered step list, preserving the source's interleaving of checks and
recursion: composition, conditional and validation-keyword checks; the
object branch (object checks, then `properties` and `additionalProperties`
descents); the array branch (array checks, then `items` and `prefixItems`
descents); descents into composition, conditional and definition keywords;
finally the custom validators. -/
def stepsOf (cons : ResolvedConstraints) (node : SchemaNode)
    (path : List String) (isRoot : Bool) : List TravStep :=
  [TravStep.emit (checkCompositionKeywords node cons.unsupported path isRoot),
   TravStep.emit (checkConditionalKeywords node cons.unsupported path),
   TravStep.emit (checkValidationKeywords node cons.unsupported path)] ++
  (if isObjectLike node then
    TravStep.emit (checkObjectConstraints node cons.unsupported path) ::
      (propertyVisits node ++ additionalPropertiesVisits node)
  else []) ++
  (if isArrayLike node then
    TravStep.emit (checkArrayConstraints node cons.unsupported path) ::
      (itemsVisits node ++ prefixItemsVisits node)
  else []) ++
  compositionVisits "allOf" node.allOf ++
  compositionVisits "anyOf" node.anyOf ++
  compositionVisits "oneOf" node.oneOf ++
  conditionalVisit "if" node.ifSchema ++
  conditionalVisit "then" node.thenSchema ++
  conditionalVisit "else" node.elseSchema ++
  defsVisits node ++
  [TravStep.emit (runCustomValidators cons.customValidators node path isRoot)]

/-- Traversal state: the set of already-visited node identities and the
issue sink (both shared down the recursion in the source), plus the
instrumentation-only list of re-encounter paths. -/
structure TravState where
  visited : List Nat
  issues : List ValidationIssue
  reencounters : List (List String)
  deriving Repr

/-- Processes the step list of one node: `emit` appends to the issue sink,
`visit` recurses via the supplied continuation (which is `traverseSchema`
with one unit of fuel less and `isRoot = false`). -/
def goSteps (recurse : Nat → List String → TravState → Option TravState)
    (path : List String) : List TravStep → TravState → Option TravState
  | [], st => some st
  | TravStep.emit issues :: rest, st =>
      goSteps recurse path rest { st with issues := st.issues ++ issues }
  | TravStep.visit rel id :: rest, st =>
      match recurse id (path ++ rel) st with
      | none => none
      | some st' => goSteps recurse path rest st'

/-- `traverseSchema` (validate.ts, lines 38-179), fuelled.  A re-encounter
of a visited node reports one `recursive` issue when the rule set marks
`recursive` unsupported (hard-coded message) and stops descending; an
unvisited node is marked visited and its step list is processed. -/
def traverseSchema (store : SchemaStore) (cons : ResolvedConstraints) :
    Nat → Nat → List String → Bool → TravState → Option TravState
  | 0, _, _, _, _ => none
  | fuel + 1, id, path, isRoot, st =>
    if st.visited.contains id then
      some { st with
        issues :=
          if isFeatureUnsupported "recursive" cons.unsupported none then
            st.issues ++ [⟨path, "recursive", "Recursive schemas are not supported"⟩]
          else st.issues,
        reencounters := st.reencounters ++ [path] }
    else
      match store.get? id with
      | none => some st
      | some node =>
        goSteps (fun cid cpath cst => traverseSchema store cons fuel cid cpath false cst)
          path (stepsOf cons node path isRoot)
          { st with visited := id :: st.visited }

/-- The fresh state of one traversal (validate.ts, lines 25-31). -/
def initialState : TravState := ⟨[], [], []⟩

/-- One full traversal from the root with sufficient fuel. -/
def runTraversal (store : SchemaStore) (rootId : Nat)
    (cons : ResolvedConstraints) : Option TravState :=
  traverseSchema store cons (store.length + 1) rootId [] true initialState

/-- `validateSchemaConstraints` (validate.ts, lines 21-36): the issue list
of a full traversal.  The fuel default is unreachable (see the termination
theorem below). -/
def validateSchemaConstraints (store : SchemaStore) (rootId : Nat)
    (cons : ResolvedConstraints) : List ValidationIssue :=
  match runTraversal store rootId cons with
  | some st => st.issues
  | none => []

/-- The re-encounter paths of a full traversal (instrumentation). -/
def reencountersOf (store : SchemaStore) (rootId : Nat)
    (cons : ResolvedConstraints) : List (List String) :=
  match runTraversal store rootId cons with
  | some st => st.reencounters
  | none => []

/-!
## The provider registry (`src/constraints/registry.ts`)
-/

/-- A registry pattern (`types.ts`, `ProviderPattern`): an exact string or a
regular expression.  A regex is modelled as its matcher function, tagged
with a `Nat` identity because a JS `Map` compares `RegExp` keys by object
identity (two regexes with the same source text are distinct keys). -/
inductive ProviderPattern where
  | str (s : String)
  | regex (id : Nat) (test : String → Bool)

/-- Key equality of the registry `Map`: strings by value (SameValueZero),
regexes by object identity. -/
def ProviderPattern.keyEq : ProviderPattern → ProviderPattern → Bool
  | .str a, .str b => a == b
  | .regex i _, .regex j _ => i == j
  | _, _ => false

/-- Provider-level constraints (`types.ts`, `ProviderConstraints`). -/
structure ProviderConstraints where
  provider : String
  unsupported : List ConstraintRule
  customValidators : Option (List CustomValidator) := none
  jsonSchemaTarget : Option String := none

/-- The registry store: a JS `Map` iterates in insertion order. -/
abbrev Registry := List (ProviderPattern × ProviderConstraints)

/-- `Map.set` semantics: overwriting an existing key keeps its original
insertion position; a new key is appended. -/
def registrySet (reg : Registry) (pat : ProviderPattern)
    (c : ProviderConstraints) : Registry :=
  if reg.any (fun e => e.1.keyEq pat) then
    reg.map (fun e => if e.1.keyEq pat then (e.1, c) else e)
  else reg ++ [(pat, c)]

/-- The shared enum validate function of the built-in providers: flags an
`enum` whose members include a non-null object or array value. -/
def enumPrimitiveValidate (schema : SchemaNode) (path : List String)
    (_ : Bool) : List ValidationIssue :=
  match schema.enumVals with
  | some vals =>
    if vals.any (fun v => v == .complex) then
      [⟨path, "enum",
        "Enum values must be strings, numbers, booleans, or null - complex types are not supported"⟩]
    else []
  | none => []

/-- The validate function of OpenAI's `optionalProperties` rule: every
declared property must be listed in `required`. -/
def optionalPropertiesValidate (schema : SchemaNode) (path : List String)
    (_ : Bool) : List ValidationIssue :=
  match schema.properties with
  | some props =>
    let required := schema.required.getD []
    let optional := (props.map Prod.fst).filter (fun p => !required.contains p)
    if optional.length > 0 then
      [⟨path, "optionalProperties",
        "All properties must be required. Optional properties found: " ++
          String.intercalate ", " optional⟩]
    else []
  | none => []

/-- `openaiConstraints` (`src/constraints/openai/openai.ts`). -/
def openaiConstraints : ProviderConstraints where
  provider := "openai"
  unsupported :=
    [.simple "rootAnyOf" (some .root) (some "anyOf is not supported at root level") none,
     .simple "oneOf" none
       (some "oneOf is not supported (use anyOf within properties instead)") none,
     .simple "allOf" none (some "allOf is not supported") none,
     .simple "not" none (some "not is not supported") none,
     .simple "dependentRequired" none (some "dependentRequired is not supported") none,
     .simple "dependentSchemas" none (some "dependentSchemas is not supported") none,
     .simple "if" none (some "if/then/else conditionals are not supported") none,
     .simple "patternProperties" none (some "patternProperties is not supported") none,
     .simple "additionalProperties" none
       (some "additionalProperties must be explicitly set to false") (some [.bool false]),
     .custom "optionalProperties" none optionalPropertiesValidate,
     .custom "enum" none enumPrimitiveValidate]

/-- `anthropicConstraints` (`src/constraints/anthropic/anthropic.ts`). -/
def anthropicConstraints : ProviderConstraints where
  provider := "anthropic"
  unsupported :=
    [.simple "recursive" none (some "Recursive schemas are not supported") none,
     .simple "minimum" none (some "minimum constraint is not supported") none,
     .simple "maximum" none (some "maximum constraint is not supported") none,
     .simple "exclusiveMinimum" none (some "exclusiveMinimum is not supported") none,
     .simple "exclusiveMaximum" none (some "exclusiveMaximum is not supported") none,
     .simple "multipleOf" none (some "multipleOf is not supported") none,
     .simple "minLength" none (some "minLength constraint is not supported") none,
     .simple "maxLength" none (some "maxLength constraint is not supported") none,
     .simple "maxItems" none (some "maxItems constraint is not supported") none,
     .simple "uniqueItems" none (some "uniqueItems is not supported") none,
     .simple "contains" none (some "contains is not supported") none,
     .simple "minItems" none (some "minItems only supports values 0 and 1")
       (some [.num 0, .num 1]),
     .simple "additionalProperties" none
       (some "additionalProperties must be explicitly set to false") (some [.bool false]),
     .custom "enum" none enumPrimitiveValidate]

/-- `googleConstraints` (`src/constraints/google/google.ts`). -/
def googleConstraints : ProviderConstraints where
  provider := "google"
  unsupported :=
    [.simple "oneOf" none (some "oneOf is not supported (use anyOf instead)") none,
     .simple "allOf" none (some "allOf is not supported") none,
     .simple "not" none (some "not is not supported") none,
     .simple "if" none (some "if/then/else conditionals are not supported") none,
     .simple "recursive" none (some "Recursive schemas are not supported") none,
     .simple "pattern" none (some "pattern constraint is not supported") none,
     .simple "minLength" none (some "minLength constraint is not supported") none,
     .simple "maxLength" none (some "maxLength constraint is not supported") none,
     .simple "exclusiveMinimum" none
       (some "exclusiveMinimum is not supported (use minimum instead)") none,
     .simple "exclusiveMaximum" none
       (some "exclusiveMaximum is not supported (use maximum instead)") none,
     .simple "multipleOf" none (some "multipleOf is not supported") none,
     .simple "dependentRequired" none (some "dependentRequired is not supported") none,
     .simple "dependentSchemas" none (some "dependentSchemas is not supported") none,
     .simple "patternProperties" none (some "patternProperties is not supported") none,
     .simple "propertyNames" none (some "propertyNames is not supported") none,
     .simple "uniqueItems" none (some "uniqueItems is not supported") none,
     .simple "contains" none (some "contains is not supported") none,
     .simple "additionalItems" none (some "additionalItems is not supported") none,
     .custom "enum" none enumPrimitiveValidate]

/-- The built-in provider table of `registry.ts` (`builtInProviders`). -/
def builtInProviders (name : String) : Option ProviderConstraints :=
  if name == "openai" then some openaiConstraints
  else if name == "anthropic" then some anthropicConstraints
  else if name == "google" then some googleConstraints
  else none

/-- A registration request (`types.ts`, `ProviderRegistryEntry`): a pattern
with explicit constraints, or a pattern aliasing a built-in provider. -/
inductive ProviderRegistryEntry where
  | withConstraints (pattern : ProviderPattern) (constraints : ProviderConstraints)
  | withProvider (pattern : ProviderPattern) (provider : String)

/-- `ProviderRegistry.register` (registry.ts, lines 176-192): an alias is
resolved through the built-in table, raising an `Unknown provider` error
(before any mutation) when the name is not recognized. -/
def registerEntry (reg : Registry) : ProviderRegistryEntry → Except String Registry
  | .withProvider pat name =>
    match builtInProviders name with
    | none =>
      .error ("Unknown provider \"" ++ name ++
        "\". Available providers: openai, anthropic, google")
    | some c => .ok (registrySet reg pat c)
  | .withConstraints pat c => .ok (registrySet reg pat c)

/-- Binding provider constraints to a model id, as done in both return
paths of `resolve` (`customValidators ?? []`). -/
def mkResolved (c : ProviderConstraints) (modelId : String) : ResolvedConstraints :=
  ⟨c.provider, modelId, c.unsupported, c.customValidators.getD [], c.jsonSchemaTarget⟩

/-- The exact-string lookup of `resolve`: `Map.get` with a string key, which
can only hit string-keyed entries. -/
def exactLookup (reg : Registry) (key : String) : Option ProviderConstraints :=
  (reg.find? fun e =>
    match e.1 with
    | .str s => s == key
    | .regex _ _ => false).map Prod.snd

/-- The regex scan of `resolve`: all entries in reverse insertion order, the
first regex-keyed entry whose pattern matches wins. -/
def regexLookup (reg : Registry) (key : String) : Option ProviderConstraints :=
  (reg.reverse.find? fun e =>
    match e.1 with
    | .regex _ t => t key
    | .str _ => false).map Prod.snd

/-- The `console.warn` message emitted for an unmatched identifier. -/
def unknownModelWarning (modelIdentifier : String) : String :=
  "[ai-assert-schema] Unknown model \"" ++ modelIdentifier ++
    "\" - no constraints applied."

/-- `ProviderRegistry.resolve` (registry.ts, lines 213-254) on an
already-parsed `{provider, modelId}` pair (identifier parsing is the
excluded collaborator).  Besides the resolved constraints it returns the
list of warnings written to the logging collaborator. -/
def resolveConstraints (reg : Registry) (provider modelId : String) :
    ResolvedConstraints × List String :=
  let modelIdentifier := provider ++ "/" ++ modelId
  match exactLookup reg modelIdentifier with
  | some c => (mkResolved c modelId, [])
  | none =>
    match regexLookup reg modelIdentifier with
    | some c => (mkResolved c modelId, [])
    | none =>
      (⟨provider, modelId, [], [], none⟩, [unknownModelWarning modelIdentifier])

/-!
## Traversal infrastructure lemmas
-/

/-- The state after any amount of traversal work extends the state before
it: visited identities are pushed in front, issues and re-encounter paths
are appended behind. -/
def StateExt (st st' : TravState) : Prop :=
  (∃ dv, st'.visited = dv ++ st.visited) ∧
  (∃ di, st'.issues = st.issues ++ di) ∧
  (∃ dr, st'.reencounters = st.reencounters ++ dr)

theorem StateExt.refl (st : TravState) : StateExt st st :=
  ⟨⟨[], rfl⟩, ⟨[], by simp⟩, ⟨[], by simp⟩⟩

theorem StateExt.trans {a b c : TravState} (h1 : StateExt a b)
    (h2 : StateExt b c) : StateExt a c := by
  obtain ⟨⟨dv1, hv1⟩, ⟨di1, hi1⟩, ⟨dr1, hr1⟩⟩ := h1
  obtain ⟨⟨dv2, hv2⟩, ⟨di2, hi2⟩, ⟨dr2, hr2⟩⟩ := h2
  exact ⟨⟨dv2 ++ dv1, by simp [hv2, hv1]⟩, ⟨di1 ++ di2, by simp [hi2, hi1]⟩,
    ⟨dr1 ++ dr2, by simp [hr2, hr1]⟩⟩

theorem goSteps_ext (recurse : Nat → List String → TravState → Option TravState)
    (hrec : ∀ id p st st', recurse id p st = some st' → StateExt st st') :
    ∀ (steps : List TravStep) (path : List String) (st st' : TravState),
      goSteps recurse path steps st = some st' → StateExt st st' := by
  intro steps
  induction steps with
  | nil =>
    intro path st st' h
    simp only [goSteps, Option.some.injEq] at h
    exact h ▸ StateExt.refl st
  | cons step rest ih =>
    intro path st st' h
    cases step with
    | emit issues =>
      simp only [goSteps] at h
      have hmid : StateExt st { st with issues := st.issues ++ issues } :=
        ⟨⟨[], rfl⟩, ⟨issues, rfl⟩, ⟨[], by simp⟩⟩
      exact StateExt.trans hmid (ih path { st with issues := st.issues ++ issues } st' h)
    | visit rel id =>
      simp only [goSteps] at h
      cases hres : recurse id (path ++ rel) st with
      | none => rw [hres] at h; cases h
      | some st1 =>
        rw [hres] at h
        exact StateExt.trans (hrec _ _ _ _ hres) (ih path st1 st' h)

theorem traverse_ext (store : SchemaStore) (cons : ResolvedConstraints) :
    ∀ (fuel id : Nat) (path : List String) (isRoot : Bool) (st st' : TravState),
      traverseSchema store cons fuel id path isRoot st = some st' →
      StateExt st st' := by
  intro fuel
  induction fuel with
  | zero => intro id path isRoot st st' h; simp [traverseSchema] at h
  | succ fuel ih =>
    intro id path isRoot st st' h
    rw [traverseSchema] at h
    by_cases hvis : st.visited.contains id = true
    · rw [if_pos hvis] at h
      have h' := Option.some.inj h
      subst h'
      refine ⟨⟨[], rfl⟩, ?_, ⟨[path], rfl⟩⟩
      by_cases hru : isFeatureUnsupported "recursive" cons.unsupported none = true
      · refine ⟨[⟨path, "recursive", "Recursive schemas are not supported"⟩], ?_⟩
        simp [hru]
      · refine ⟨[], ?_⟩
        simp [hru]
    · rw [if_neg hvis] at h
      cases hget : store.get? id with
      | none =>
        rw [hget] at h
        have h' := Option.some.inj h
        subst h'
        exact StateExt.refl st
      | some node =>
        rw [hget] at h
        have hext := goSteps_ext _ (fun cid cpath cst cst' hc => ih cid cpath false cst cst' hc)
          (stepsOf cons node path isRoot) path _ st' h
        exact StateExt.trans ⟨⟨[id], rfl⟩, ⟨[], by simp⟩, ⟨[], by simp⟩⟩ hext

/-- Invariant of traversal states: visited identities are distinct and in
range of the store. -/
def StateInv (store : SchemaStore) (st : TravState) : Prop :=
  st.visited.Nodup ∧ ∀ v ∈ st.visited, v < store.length

theorem nodupBoundedLength {l : List Nat} {L : Nat} (hd : l.Nodup)
    (hb : ∀ v ∈ l, v < L) : l.length ≤ L := by
  have h1 : l.toFinset.card = l.length := List.toFinset_card_of_nodup hd
  have h2 : l.toFinset ⊆ Finset.range L := by
    intro x hx
    rw [List.mem_toFinset] at hx
    simpa using hb x hx
  calc l.length = l.toFinset.card := h1.symm
    _ ≤ (Finset.range L).card := Finset.card_le_card h2
    _ = L := Finset.card_range L

theorem goSteps_total (store : SchemaStore) (n : Nat)
    (recurse : Nat → List String → TravState → Option TravState)
    (hrec : ∀ id p st, StateInv store st → store.length - st.visited.length < n →
      ∃ st', recurse id p st = some st' ∧ StateInv store st' ∧ StateExt st st') :
    ∀ (steps : List TravStep) (path : List String) (st : TravState),
      StateInv store st → store.length - st.visited.length < n →
      ∃ st', goSteps recurse path steps st = some st' ∧ StateInv store st' ∧
        StateExt st st' := by
  intro steps
  induction steps with
  | nil => intro path st hinv hb; exact ⟨st, rfl, hinv, StateExt.refl st⟩
  | cons step rest ih =>
    intro path st hinv hb
    cases step with
    | emit issues =>
      obtain ⟨st', hrun, hinv', hext'⟩ :=
        ih path { st with issues := st.issues ++ issues } hinv hb
      have hmid : StateExt st { st with issues := st.issues ++ issues } :=
        ⟨⟨[], rfl⟩, ⟨issues, rfl⟩, ⟨[], by simp⟩⟩
      exact ⟨st', hrun, hinv', StateExt.trans hmid hext'⟩
    | visit rel id =>
      obtain ⟨st1, hres, hinv1, hext1⟩ := hrec id (path ++ rel) st hinv hb
      have hb1 : store.length - st1.visited.length < n := by
        obtain ⟨⟨dv, hdv⟩, -, -⟩ := hext1
        have hlen : st.visited.length ≤ st1.visited.length := by rw [hdv]; simp
        omega
      obtain ⟨st', hrun, hinv', hext'⟩ := ih path st1 hinv1 hb1
      refine ⟨st', ?_, hinv', StateExt.trans hext1 hext'⟩
      simp only [goSteps, hres]
      exact hrun

theorem traverse_total (store : SchemaStore) (cons : ResolvedConstraints) :
    ∀ (fuel id : Nat) (path : List String) (isRoot : Bool) (st : TravState),
      StateInv store st → store.length - st.visited.length < fuel →
      ∃ st', traverseSchema store cons fuel id path isRoot st = some st' ∧
        StateInv store st' ∧ StateExt st st' := by
  intro fuel
  induction fuel with
  | zero => intro id path isRoot st hinv hb; omega
  | succ fuel ih =>
    intro id path isRoot st hinv hb
    by_cases hvis : st.visited.contains id = true
    · refine ⟨{ st with
          issues :=
            if isFeatureUnsupported "recursive" cons.unsupported none = true then
              st.issues ++ [⟨path, "recursive", "Recursive schemas are not supported"⟩]
            else st.issues,
          reencounters := st.reencounters ++ [path] }, ?_, ⟨hinv.1, hinv.2⟩, ?_⟩
      · rw [traverseSchema]
        rw [if_pos hvis]
      · refine ⟨⟨[], rfl⟩, ?_, ⟨[path], rfl⟩⟩
        by_cases hru : isFeatureUnsupported "recursive" cons.unsupported none = true
        · exact ⟨[⟨path, "recursive", "Recursive schemas are not supported"⟩], by simp [hru]⟩
        · exact ⟨[], by simp [hru]⟩
    · cases hget : store.get? id with
      | none =>
        exact ⟨st, by rw [traverseSchema]; rw [if_neg hvis, hget], hinv, StateExt.refl st⟩
      | some node =>
        have hid : id < store.length := by
          have := List.get?_eq_some.mp hget
          exact this.1
        have hfresh : id ∉ st.visited := by simpa using hvis
        have hinv1 : StateInv store { st with visited := id :: st.visited } := by
          constructor
          · exact List.nodup_cons.mpr ⟨hfresh, hinv.1⟩
          · intro v hv
            rcases List.mem_cons.mp hv with h | h
            · exact h ▸ hid
            · exact hinv.2 v h
        have hlen : st.visited.length + 1 ≤ store.length := by
          have := nodupBoundedLength hinv1.1 hinv1.2
          simpa using this
        have hb1 : store.length -
            ({ st with visited := id :: st.visited } : TravState).visited.length < fuel := by
          simp only [List.length_cons]
          omega
        obtain ⟨st', hrun, hinv', hext'⟩ :=
          goSteps_total store fuel
            (fun cid cpath cst => traverseSchema store cons fuel cid cpath false cst)
            (fun cid cpath cst hi hbd => ih cid cpath false cst hi hbd)
            (stepsOf cons node path isRoot) path
            { st with visited := id :: st.visited } hinv1 hb1
        refine ⟨st', ?_, hinv',
          StateExt.trans
            (⟨⟨[id], rfl⟩, ⟨[], by simp⟩, ⟨[], by simp⟩⟩ :
              StateExt st { st with visited := id :: st.visited }) hext'⟩
        rw [traverseSchema]
        rw [if_neg hvis, hget]
        exact hrun

/-!
## Generic predicates over traversal output
-/

/-- Per-step obligation of the issue-predicate lemmas: every issue of an
`emit` step satisfies `Pred`, and the target path of a `visit` step
satisfies the invariant `P` at `isRoot = false`. -/
def StepOK (Pred : ValidationIssue → Prop) (P : List String → Bool → Prop)
    (path : List String) : TravStep → Prop
  | .emit issues => ∀ iss ∈ issues, Pred iss
  | .visit rel _ => P (path ++ rel) false

theorem goSteps_pred (Pred : ValidationIssue → Prop) (P : List String → Bool → Prop)
    (recurse : Nat → List String → TravState → Option TravState)
    (hrec : ∀ id p st st', P p false → recurse id p st = some st' →
      ∀ iss ∈ st'.issues, iss ∈ st.issues ∨ Pred iss) :
    ∀ (steps : List TravStep) (path : List String) (st st' : TravState),
      (∀ step ∈ steps, StepOK Pred P path step) →
      goSteps recurse path steps st = some st' →
      ∀ iss ∈ st'.issues, iss ∈ st.issues ∨ Pred iss := by
  intro steps
  induction steps with
  | nil =>
    intro path st st' hsteps h
    simp only [goSteps, Option.some.injEq] at h
    subst h
    exact fun iss hiss => Or.inl hiss
  | cons step rest ih =>
    intro path st st' hsteps h
    have hhead := hsteps step (List.mem_cons_self step rest)
    have htail := fun s hs => hsteps s (List.mem_cons_of_mem step hs)
    cases step with
    | emit issues =>
      simp only [goSteps] at h
      intro iss hiss
      rcases ih path { st with issues := st.issues ++ issues } st' htail h iss hiss with
        hin | hp
      · rcases List.mem_append.mp hin with h1 | h2
        · exact Or.inl h1
        · exact Or.inr (hhead iss h2)
      · exact Or.inr hp
    | visit rel id =>
      simp only [goSteps] at h
      cases hres : recurse id (path ++ rel) st with
      | none => rw [hres] at h; cases h
      | some st1 =>
        rw [hres] at h
        intro iss hiss
        rcases ih path st1 st' htail h iss hiss with hin | hp
        · exact hrec id (path ++ rel) st st1 hhead hres iss hin
        · exact Or.inr hp

theorem traverse_pred (store : SchemaStore) (cons : ResolvedConstraints)
    (Pred : ValidationIssue → Prop) (P : List String → Bool → Prop)
    (hstep : ∀ id node path isRoot, store.get? id = some node → P path isRoot →
      ∀ step ∈ stepsOf cons node path isRoot, StepOK Pred P path step)
    (hrec : ∀ path isRoot, P path isRoot →
      isFeatureUnsupported "recursive" cons.unsupported none = true →
      Pred ⟨path, "recursive", "Recursive schemas are not supported"⟩) :
    ∀ (fuel id : Nat) (path : List String) (isRoot : Bool) (st st' : TravState),
      P path isRoot →
      traverseSchema store cons fuel id path isRoot st = some st' →
      ∀ iss ∈ st'.issues, iss ∈ st.issues ∨ Pred iss := by
  intro fuel
  induction fuel with
  | zero => intro id path isRoot st st' hP h; simp [traverseSchema] at h
  | succ fuel ih =>
    intro id path isRoot st st' hP h
    rw [traverseSchema] at h
    by_cases hvis : st.visited.contains id = true
    · rw [if_pos hvis] at h
      have h' := Option.some.inj h
      subst h'
      intro iss hiss
      by_cases hru : isFeatureUnsupported "recursive" cons.unsupported none = true
      · rw [if_pos hru] at hiss
        rcases List.mem_append.mp hiss with h1 | h2
        · exact Or.inl h1
        · rw [List.mem_singleton] at h2
          exact Or.inr (by rw [h2]; exact hrec path isRoot hP hru)
      · rw [if_neg hru] at hiss
        exact Or.inl hiss
    · rw [if_neg hvis] at h
      cases hget : store.get? id with
      | none =>
        rw [hget] at h
        have h' := Option.some.inj h
        subst h'
        exact fun iss hiss => Or.inl hiss
      | some node =>
        rw [hget] at h
        exact goSteps_pred Pred P _
          (fun cid cpath cst cst' hPc hc => ih cid cpath false cst cst' hPc hc)
          (stepsOf cons node path isRoot) path
          { st with visited := id :: st.visited } st'
          (hstep id node path isRoot hget hP) h

theorem goSteps_pred_noreenc (Pred : ValidationIssue → Prop)
    (P : List String → Bool → Prop)
    (recurse : Nat → List String → TravState → Option TravState)
    (hrecExt : ∀ id p st st', recurse id p st = some st' → StateExt st st')
    (hrec : ∀ id p st st', P p false → recurse id p st = some st' →
      st'.reencounters = st.reencounters →
      ∀ iss ∈ st'.issues, iss ∈ st.issues ∨ Pred iss) :
    ∀ (steps : List TravStep) (path : List String) (st st' : TravState),
      (∀ step ∈ steps, StepOK Pred P path step) →
      goSteps recurse path steps st = some st' →
      st'.reencounters = st.reencounters →
      ∀ iss ∈ st'.issues, iss ∈ st.issues ∨ Pred iss := by
  intro steps
  induction steps with
  | nil =>
    intro path st st' hsteps h hre
    simp only [goSteps, Option.some.injEq] at h
    subst h
    exact fun iss hiss => Or.inl hiss
  | cons step rest ih =>
    intro path st st' hsteps h hre
    have hhead := hsteps step (List.mem_cons_self step rest)
    have htail := fun s hs => hsteps s (List.mem_cons_of_mem step hs)
    cases step with
    | emit issues =>
      simp only [goSteps] at h
      intro iss hiss
      rcases ih path { st with issues := st.issues ++ issues } st' htail h hre iss hiss with
        hin | hp
      · rcases List.mem_append.mp hin with h1 | h2
        · exact Or.inl h1
        · exact Or.inr (hhead iss h2)
      · exact Or.inr hp
    | visit rel id =>
      simp only [goSteps] at h
      cases hres : recurse id (path ++ rel) st with
      | none => rw [hres] at h; cases h
      | some st1 =>
        rw [hres] at h
        obtain ⟨-, -, d1, hd1⟩ := hrecExt id (path ++ rel) st st1 hres
        obtain ⟨-, -, d2, hd2⟩ := goSteps_ext recurse hrecExt rest path st1 st' h
        have hcat : st.reencounters = st.reencounters ++ (d1 ++ d2) := by
          rw [← List.append_assoc, ← hd1, ← hd2, hre]
        have hlen := congrArg List.length hcat
        rw [List.length_append] at hlen
        have hnil : d1 ++ d2 = [] :=
          List.eq_nil_of_length_eq_zero (by omega)
        obtain ⟨hd1nil, hd2nil⟩ := List.append_eq_nil.mp hnil
        have hre1 : st1.reencounters = st.reencounters := by simp [hd1, hd1nil]
        have hre2 : st'.reencounters = st1.reencounters := by simp [hd2, hd2nil]
        intro iss hiss
        rcases ih path st1 st' htail h hre2 iss hiss with hin | hp
        · exact hrec id (path ++ rel) st st1 hhead hres hre1 iss hin
        · exact Or.inr hp

theorem traverse_pred_noreenc (store : SchemaStore) (cons : ResolvedConstraints)
    (Pred : ValidationIssue → Prop) (P : List String → Bool → Prop)
    (hstep : ∀ id node path isRoot, store.get? id = some node → P path isRoot →
      ∀ step ∈ stepsOf cons node path isRoot, StepOK Pred P path step) :
    ∀ (fuel id : Nat) (path : List String) (isRoot : Bool) (st st' : TravState),
      P path isRoot →
      traverseSchema store cons fuel id path isRoot st = some st' →
      st'.reencounters = st.reencounters →
      ∀ iss ∈ st'.issues, iss ∈ st.issues ∨ Pred iss := by
  intro fuel
  induction fuel with
  | zero => intro id path isRoot st st' hP h hre; simp [traverseSchema] at h
  | succ fuel ih =>
    intro id path isRoot st st' hP h hre
    rw [traverseSchema] at h
    by_cases hvis : st.visited.contains id = true
    · rw [if_pos hvis] at h
      have h' := Option.some.inj h
      subst h'
      exfalso
      have := congrArg List.length hre
      simp at this
    · rw [if_neg hvis] at h
      cases hget : store.get? id with
      | none =>
        rw [hget] at h
        have h' := Option.some.inj h
        subst h'
        exact fun iss hiss => Or.inl hiss
      | some node =>
        rw [hget] at h
        exact goSteps_pred_noreenc Pred P _
          (fun cid cpath cst cst' hc =>
            traverse_ext store cons fuel cid cpath false cst cst' hc)
          (fun cid cpath cst cst' hPc hc hrec' => ih cid cpath false cst cst' hPc hc hrec')
          (stepsOf cons node path isRoot) path
          { st with visited := id :: st.visited } st'
          (hstep id node path isRoot hget hP) h hre

/-!
## Characterization of the emitted issues
-/

theorem mem_singleton_ite {α : Type} {c : Prop} [Decidable c] {x y : α}
    (h : x ∈ (if c then [y] else [])) : c ∧ x = y := by
  split at h
  · exact ⟨by assumption, List.mem_singleton.mp h⟩
  · simp at h

theorem mem_ite_nil {α : Type} {c : Prop} [Decidable c] {x : α} {l : List α}
    (h : x ∈ (if c then l else [])) : c ∧ x ∈ l := by
  split at h
  · exact ⟨by assumption, h⟩
  · simp at h

theorem mem_ite_chain {α : Type} {c1 c2 : Prop} [Decidable c1] [Decidable c2]
    {x y z : α} (h : x ∈ (if c1 then [y] else if c2 then [z] else [])) :
    (c1 ∧ x = y) ∨ (¬c1 ∧ c2 ∧ x = z) := by
  split at h
  · exact Or.inl ⟨by assumption, List.mem_singleton.mp h⟩
  · rcases mem_singleton_ite h with ⟨hc, hx⟩
    exact Or.inr ⟨by assumption, hc, hx⟩

theorem isFeatureUnsupported_exists {f : String} {rules : List ConstraintRule}
    {ctx : Option FeatureContext} (h : isFeatureUnsupported f rules ctx = true) :
    ∃ rule ∈ rules, rule.feature = f := by
  rw [isFeatureUnsupported, List.any_eq_true] at h
  obtain ⟨rule, hmem, hp⟩ := h
  refine ⟨rule, hmem, ?_⟩
  by_contra hne
  have hb : (rule.feature != f) = true := bne_iff_ne.mpr hne
  rw [if_pos hb] at hp
  simp at hp

/-- Specification-side notion of "the node uses feature `f`": the exact
trigger condition each built-in check tests before consulting the rules.
Features the engine never checks (and `recursive`, whose trigger is a
re-encounter, handled separately) map to `false`. -/
def staticTrigger (node : SchemaNode) (f : String) : Bool :=
  if f == "allOf" then node.allOf.isSome
  else if f == "anyOf" then node.anyOf.isSome
  else if f == "rootAnyOf" then node.anyOf.isSome
  else if f == "oneOf" then node.oneOf.isSome
  else if f == "rootOneOf" then node.oneOf.isSome
  else if f == "not" then optRefTruthy node.notSchema
  else if f == "if" then optRefTruthy node.ifSchema
  else if f == "dependentRequired" then node.dependentRequired
  else if f == "dependentSchemas" then node.dependentSchemas
  else if f == "patternProperties" then node.patternProperties
  else if f == "propertyNames" then node.propertyNames
  else if f == "prefixItems" then node.prefixItems.isSome
  else if f == "contains" then node.contains
  else if f == "uniqueItems" then node.uniqueItems == some true
  else if f == "minItems" then node.minItems.isSome
  else if f == "maxItems" then node.maxItems.isSome
  else if f == "minimum" then node.minimum.isSome
  else if f == "maximum" then node.maximum.isSome
  else if f == "exclusiveMinimum" then node.exclusiveMinimum.isSome
  else if f == "exclusiveMaximum" then node.exclusiveMaximum.isSome
  else if f == "multipleOf" then node.multipleOf.isSome
  else if f == "minLength" then node.minLength.isSome
  else if f == "maxLength" then node.maxLength.isSome
  else if f == "pattern" then node.pattern.isSome
  else if f == "format" then node.format.isSome
  else false

theorem keywordCheck_cases {present : Bool} {kw : String}
    {rules : List ConstraintRule} {path : List String} {iss : ValidationIssue}
    (h : iss ∈ keywordCheck present kw rules path) :
    iss.path = path ∧ iss.feature = kw ∧ present = true ∧
      isFeatureUnsupported kw rules none = true := by
  rw [keywordCheck] at h
  obtain ⟨hc, rfl⟩ := mem_singleton_ite h
  rw [Bool.and_eq_true] at hc
  exact ⟨rfl, rfl, hc.1, hc.2⟩

theorem checkValidationKeywords_cases {node : SchemaNode}
    {rules : List ConstraintRule} {path : List String} {iss : ValidationIssue}
    (h : iss ∈ checkValidationKeywords node rules path) :
    iss.path = path ∧ staticTrigger node iss.feature = true ∧
      isFeatureUnsupported iss.feature rules none = true ∧
      iss.feature ∈ (["minimum", "maximum", "exclusiveMinimum", "exclusiveMaximum",
        "multipleOf", "minLength", "maxLength", "pattern", "format"] : List String) := by
  rw [checkValidationKeywords] at h
  simp only [List.append_assoc] at h
  repeat'
    rcases List.mem_append.mp h with h | h
  all_goals
    obtain ⟨h1, h2, h3, h4⟩ := keywordCheck_cases h
    exact ⟨h1, by rw [h2]; exact h3, by rw [h2]; exact h4, by rw [h2]; simp⟩

theorem checkConditionalKeywords_cases {node : SchemaNode}
    {rules : List ConstraintRule} {path : List String} {iss : ValidationIssue}
    (h : iss ∈ checkConditionalKeywords node rules path) :
    iss.path = path ∧ staticTrigger node iss.feature = true ∧
      isFeatureUnsupported iss.feature rules none = true ∧
      iss.feature ∈ (["if", "dependentRequired", "dependentSchemas"] : List String) := by
  rw [checkConditionalKeywords] at h
  simp only [List.append_assoc] at h
  rcases List.mem_append.mp h with h | h
  · obtain ⟨hc, rfl⟩ := mem_singleton_ite h
    rw [Bool.and_eq_true] at hc
    exact ⟨rfl, hc.1, hc.2, by simp⟩
  rcases List.mem_append.mp h with h | h
  · obtain ⟨hc, rfl⟩ := mem_singleton_ite h
    rw [Bool.and_eq_true] at hc
    exact ⟨rfl, hc.1, hc.2, by simp⟩
  · obtain ⟨hc, rfl⟩ := mem_singleton_ite h
    rw [Bool.and_eq_true] at hc
    exact ⟨rfl, hc.1, hc.2, by simp⟩

theorem checkObjectConstraints_cases {node : SchemaNode}
    {rules : List ConstraintRule} {path : List String} {iss : ValidationIssue}
    (h : iss ∈ checkObjectConstraints node rules path) :
    iss.path = path ∧ staticTrigger node iss.feature = true ∧
      isFeatureUnsupported iss.feature rules none = true ∧
      iss.feature ∈ (["patternProperties", "propertyNames"] : List String) := by
  rw [checkObjectConstraints] at h
  rcases List.mem_append.mp h with h | h
  · obtain ⟨hc, rfl⟩ := mem_singleton_ite h
    rw [Bool.and_eq_true] at hc
    exact ⟨rfl, hc.1, hc.2, by simp⟩
  · obtain ⟨hc, rfl⟩ := mem_singleton_ite h
    rw [Bool.and_eq_true] at hc
    exact ⟨rfl, hc.1, hc.2, by simp⟩

theorem checkArrayConstraints_cases {node : SchemaNode}
    {rules : List ConstraintRule} {path : List String} {iss : ValidationIssue}
    (h : iss ∈ checkArrayConstraints node rules path) :
    iss.path = path ∧ staticTrigger node iss.feature = true ∧
      isFeatureUnsupported iss.feature rules none = true ∧
      iss.feature ∈ (["prefixItems", "contains", "uniqueItems", "minItems",
        "maxItems"] : List String) := by
  rw [checkArrayConstraints] at h
  simp only [List.append_assoc] at h
  rcases List.mem_append.mp h with h | h
  · obtain ⟨hc, rfl⟩ := mem_singleton_ite h
    rw [Bool.and_eq_true] at hc
    exact ⟨rfl, hc.1, hc.2, by simp⟩
  rcases List.mem_append.mp h with h | h
  · obtain ⟨hc, rfl⟩ := mem_singleton_ite h
    rw [Bool.and_eq_true] at hc
    exact ⟨rfl, hc.1, hc.2, by simp⟩
  rcases List.mem_append.mp h with h | h
  · obtain ⟨hc, rfl⟩ := mem_singleton_ite h
    rw [Bool.and_eq_true] at hc
    exact ⟨rfl, hc.1, hc.2, by simp⟩
  rcases List.mem_append.mp h with h | h
  · obtain ⟨hc, rfl⟩ := mem_singleton_ite h
    rw [Bool.and_eq_true] at hc
    exact ⟨rfl, hc.1, hc.2, by simp⟩
  · obtain ⟨hc, rfl⟩ := mem_singleton_ite h
    rw [Bool.and_eq_true] at hc
    exact ⟨rfl, hc.1, hc.2, by simp⟩

theorem checkCompositionKeywords_cases {node : SchemaNode}
    {rules : List ConstraintRule} {path : List String} {isRoot : Bool}
    {iss : ValidationIssue}
    (h : iss ∈ checkCompositionKeywords node rules path isRoot) :
    iss.path = path ∧ staticTrigger node iss.feature = true ∧
      (∃ rule ∈ rules, rule.feature = iss.feature) ∧
      (iss.feature = "allOf" ∨
       (iss.feature = "rootAnyOf" ∧ isRoot = true) ∨
       (iss.feature = "anyOf" ∧ isRoot = false ∧
         isFeatureUnsupported "anyOf" rules (some .nested) = true) ∨
       (iss.feature = "rootOneOf" ∧ isRoot = true) ∨
       (iss.feature = "oneOf" ∧
         isFeatureUnsupported "oneOf" rules
           (some (if isRoot then FeatureContext.root else FeatureContext.nested)) = true) ∨
       iss.feature = "not") := by
  rw [checkCompositionKeywords] at h
  simp only [List.append_assoc] at h
  rcases List.mem_append.mp h with h | h
  · obtain ⟨hc, rfl⟩ := mem_singleton_ite h
    rw [Bool.and_eq_true] at hc
    exact ⟨rfl, hc.1, isFeatureUnsupported_exists hc.2, Or.inl rfl⟩
  rcases List.mem_append.mp h with h | h
  · -- anyOf chunk
    obtain ⟨hany, h⟩ := mem_ite_nil h
    rcases mem_ite_chain h with ⟨hc, rfl⟩ | ⟨-, hc, rfl⟩
    · rw [Bool.and_eq_true] at hc
      exact ⟨rfl, hany, isFeatureUnsupported_exists hc.2, Or.inr (Or.inl ⟨rfl, hc.1⟩)⟩
    · rw [Bool.and_eq_true, Bool.not_eq_true'] at hc
      obtain ⟨hnr, hfu⟩ := hc
      rw [hnr] at hfu
      simp only [Bool.false_eq_true, if_false] at hfu
      exact ⟨rfl, hany, isFeatureUnsupported_exists hfu,
        Or.inr (Or.inr (Or.inl ⟨rfl, hnr, hfu⟩))⟩
  rcases List.mem_append.mp h with h | h
  · -- oneOf chunk
    obtain ⟨hone, h⟩ := mem_ite_nil h
    rcases mem_ite_chain h with ⟨hc, rfl⟩ | ⟨-, hc, rfl⟩
    · rw [Bool.and_eq_true] at hc
      exact ⟨rfl, hone, isFeatureUnsupported_exists hc.2,
        Or.inr (Or.inr (Or.inr (Or.inl ⟨rfl, hc.1⟩)))⟩
    · exact ⟨rfl, hone, isFeatureUnsupported_exists hc,
        Or.inr (Or.inr (Or.inr (Or.inr (Or.inl ⟨rfl, hc⟩))))⟩
  · obtain ⟨hc, rfl⟩ := mem_singleton_ite h
    rw [Bool.and_eq_true] at hc
    exact ⟨rfl, hc.1, isFeatureUnsupported_exists hc.2,
      Or.inr (Or.inr (Or.inr (Or.inr (Or.inr rfl))))⟩

theorem runCustomValidators_nil (node : SchemaNode) (path : List String)
    (isRoot : Bool) : runCustomValidators [] node path isRoot = [] := rfl

/-!
## Shape of the visit steps
-/

theorem propertyVisits_shape {node : SchemaNode} {step : TravStep}
    (h : step ∈ propertyVisits node) :
    ∃ rel id, step = TravStep.visit rel id ∧ rel ≠ [] := by
  rw [propertyVisits] at h
  cases hp : node.properties with
  | none => rw [hp] at h; simp at h
  | some props =>
    rw [hp] at h
    obtain ⟨kv, -, heq⟩ := List.mem_filterMap.mp h
    obtain ⟨i, -, hv⟩ := Option.map_eq_some'.mp heq
    exact ⟨_, _, hv.symm, by simp⟩

theorem additionalPropertiesVisits_shape {node : SchemaNode} {step : TravStep}
    (h : step ∈ additionalPropertiesVisits node) :
    ∃ rel id, step = TravStep.visit rel id ∧ rel ≠ [] := by
  rw [additionalPropertiesVisits] at h
  rcases hp : node.additionalProperties with - | r
  · rw [hp] at h; simp at h
  · rw [hp] at h
    cases r with
    | obj i => rw [List.mem_singleton] at h; exact ⟨_, _, h, by simp⟩
    | bool b => simp at h

theorem itemsVisits_shape {node : SchemaNode} {step : TravStep}
    (h : step ∈ itemsVisits node) :
    ∃ rel id, step = TravStep.visit rel id ∧ rel ≠ [] := by
  rw [itemsVisits] at h
  rcases hp : node.items with - | v
  · rw [hp] at h; simp at h
  · rw [hp] at h
    cases v with
    | single r =>
      cases r with
      | obj i => rw [List.mem_singleton] at h; exact ⟨_, _, h, by simp⟩
      | bool b => simp at h
    | list rs =>
      obtain ⟨ir, -, heq⟩ := List.mem_filterMap.mp h
      obtain ⟨i, -, hv⟩ := Option.map_eq_some'.mp heq
      exact ⟨_, _, hv.symm, by simp⟩

theorem prefixItemsVisits_shape {node : SchemaNode} {step : TravStep}
    (h : step ∈ prefixItemsVisits node) :
    ∃ rel id, step = TravStep.visit rel id ∧ rel ≠ [] := by
  rw [prefixItemsVisits] at h
  rcases hp : node.prefixItems with - | rs
  · rw [hp] at h; simp at h
  · rw [hp] at h
    obtain ⟨ir, -, heq⟩ := List.mem_filterMap.mp h
    obtain ⟨i, -, hv⟩ := Option.map_eq_some'.mp heq
    exact ⟨_, _, hv.symm, by simp⟩

theorem compositionVisits_shape {kw : String} {o : Option (List SchemaRef)}
    {step : TravStep} (h : step ∈ compositionVisits kw o) :
    ∃ rel id, step = TravStep.visit rel id ∧ rel ≠ [] := by
  cases o with
  | none => simp [compositionVisits] at h
  | some rs =>
    simp only [compositionVisits] at h
    obtain ⟨ir, -, heq⟩ := List.mem_filterMap.mp h
    obtain ⟨i, -, hv⟩ := Option.map_eq_some'.mp heq
    exact ⟨_, _, hv.symm, by simp⟩

theorem conditionalVisit_shape {kw : String} {o : Option SchemaRef}
    {step : TravStep} (h : step ∈ conditionalVisit kw o) :
    ∃ rel id, step = TravStep.visit rel id ∧ rel ≠ [] := by
  cases o with
  | none => simp [conditionalVisit] at h
  | some r =>
    cases r with
    | obj i =>
      simp only [conditionalVisit, List.mem_singleton] at h
      exact ⟨_, _, h, by simp⟩
    | bool b => simp [conditionalVisit] at h

theorem defsVisits_shape {node : SchemaNode} {step : TravStep}
    (h : step ∈ defsVisits node) :
    ∃ rel id, step = TravStep.visit rel id ∧ rel ≠ [] := by
  rw [defsVisits] at h
  rcases hd : node.defs with - | d
  · rw [hd] at h
    rcases hd2 : node.definitions with - | d2
    · rw [hd2] at h; simp at h
    · rw [hd2] at h
      obtain ⟨kv, -, heq⟩ := List.mem_filterMap.mp h
      obtain ⟨i, -, hv⟩ := Option.map_eq_some'.mp heq
      exact ⟨_, _, hv.symm, by simp⟩
  · rw [hd] at h
    obtain ⟨kv, -, heq⟩ := List.mem_filterMap.mp h
    obtain ⟨i, -, hv⟩ := Option.map_eq_some'.mp heq
    exact ⟨_, _, hv.symm, by simp⟩

/-- Every step of a node's step list is one of the six issue emissions or a
descent with a nonempty relative path. -/
theorem stepsOf_cases {cons : ResolvedConstraints} {node : SchemaNode}
    {path : List String} {isRoot : Bool} {step : TravStep}
    (h : step ∈ stepsOf cons node path isRoot) :
    step = TravStep.emit (checkCompositionKeywords node cons.unsupported path isRoot) ∨
    step = TravStep.emit (checkConditionalKeywords node cons.unsupported path) ∨
    step = TravStep.emit (checkValidationKeywords node cons.unsupported path) ∨
    step = TravStep.emit (checkObjectConstraints node cons.unsupported path) ∨
    step = TravStep.emit (checkArrayConstraints node cons.unsupported path) ∨
    step = TravStep.emit (runCustomValidators cons.customValidators node path isRoot) ∨
    ∃ rel id, step = TravStep.visit rel id ∧ rel ≠ [] := by
  rw [stepsOf] at h
  simp only [List.append_assoc] at h
  rcases List.mem_append.mp h with h | h
  · rcases List.mem_cons.mp h with rfl | h
    · exact Or.inl rfl
    rcases List.mem_cons.mp h with rfl | h
    · exact Or.inr (Or.inl rfl)
    rcases List.mem_cons.mp h with rfl | h
    · exact Or.inr (Or.inr (Or.inl rfl))
    · simp at h
  rcases List.mem_append.mp h with h | h
  · -- object branch
    rcases mem_ite_nil h with ⟨-, h⟩
    rcases List.mem_cons.mp h with rfl | h
    · exact Or.inr (Or.inr (Or.inr (Or.inl rfl)))
    rcases List.mem_append.mp h with h | h
    · exact Or.inr (Or.inr (Or.inr (Or.inr (Or.inr (Or.inr (propertyVisits_shape h))))))
    · exact Or.inr (Or.inr (Or.inr (Or.inr (Or.inr
        (Or.inr (additionalPropertiesVisits_shape h))))))
  rcases List.mem_append.mp h with h | h
  · -- array branch
    rcases mem_ite_nil h with ⟨-, h⟩
    rcases List.mem_cons.mp h with rfl | h
    · exact Or.inr (Or.inr (Or.inr (Or.inr (Or.inl rfl))))
    rcases List.mem_append.mp h with h | h
    · exact Or.inr (Or.inr (Or.inr (Or.inr (Or.inr (Or.inr (itemsVisits_shape h))))))
    · exact Or.inr (Or.inr (Or.inr (Or.inr (Or.inr (Or.inr (prefixItemsVisits_shape h))))))
  rcases List.mem_append.mp h with h | h
  · exact Or.inr (Or.inr (Or.inr (Or.inr (Or.inr (Or.inr (compositionVisits_shape h))))))
  rcases List.mem_append.mp h with h | h
  · exact Or.inr (Or.inr (Or.inr (Or.inr (Or.inr (Or.inr (compositionVisits_shape h))))))
  rcases List.mem_append.mp h with h | h
  · exact Or.inr (Or.inr (Or.inr (Or.inr (Or.inr (Or.inr (compositionVisits_shape h))))))
  rcases List.mem_append.mp h with h | h
  · exact Or.inr (Or.inr (Or.inr (Or.inr (Or.inr (Or.inr (conditionalVisit_shape h))))))
  rcases List.mem_append.mp h with h | h
  · exact Or.inr (Or.inr (Or.inr (Or.inr (Or.inr (Or.inr (conditionalVisit_shape h))))))
  rcases List.mem_append.mp h with h | h
  · exact Or.inr (Or.inr (Or.inr (Or.inr (Or.inr (Or.inr (conditionalVisit_shape h))))))
  rcases List.mem_append.mp h with h | h
  · exact Or.inr (Or.inr (Or.inr (Or.inr (Or.inr (Or.inr (defsVisits_shape h))))))
  · rw [List.mem_singleton] at h
    exact Or.inr (Or.inr (Or.inr (Or.inr (Or.inr (Or.inl h)))))

/-!
## Concrete rule sets and documents used by the claims
-/

/-- A resolved rule set with the given unsupported rules and no custom
validators. -/
def mkConstraints (rules : List ConstraintRule) : ResolvedConstraints :=
  ⟨"provider", "model", rules, [], none⟩

/-- Anthropic's `minItems` allow-list rule. -/
def minItemsAllowRule : ConstraintRule :=
  .simple "minItems" none (some "minItems only supports values 0 and 1")
    (some [.num 0, .num 1])

/-- The document `{type: 'array', minItems: 0}`. -/
def minItemsZeroDoc : SchemaStore := [{ type := some "array", minItems := some 0 }]

/-- The document `{type: 'array', minItems: 2}`. -/
def minItemsTwoDoc : SchemaStore := [{ type := some "array", minItems := some 2 }]

/-- The document `{oneOf: [{type: 'string'}, {type: 'number'}]}` (node 0 is
the root). -/
def rootOneOfDoc : SchemaStore :=
  [{ oneOf := some [.obj 1, .obj 2] }, { type := some "string" },
   { type := some "number" }]

/-- The document `{anyOf: [{type: 'string'}, {type: 'number'}]}`. -/
def rootAnyOfDoc : SchemaStore :=
  [{ anyOf := some [.obj 1, .obj 2] }, { type := some "string" },
   { type := some "number" }]

/-- A document with `properties.animal.oneOf = [...]` one level down. -/
def nestedOneOfDoc : SchemaStore :=
  [{ type := some "object", properties := some [("animal", .obj 1)] },
   { oneOf := some [.obj 2, .obj 3] }, { type := some "string" },
   { type := some "number" }]

/-- A document with `minimum` on a nested property. -/
def nestedMinimumDoc : SchemaStore :=
  [{ type := some "object", properties := some [("a", .obj 1)] },
   { type := some "number", minimum := some 5 }]

/-- A document with `minimum` at the root. -/
def rootMinimumDoc : SchemaStore := [{ type := some "number", minimum := some 3 }]

/-- A document whose root is referenced under two different properties:
both descents re-encounter the already-visited root. -/
def doubleRefDoc : SchemaStore :=
  [{ type := some "object", properties := some [("a", .obj 0), ("b", .obj 0)] }]

/-- A document whose root directly references itself once. -/
def selfRefDoc : SchemaStore :=
  [{ type := some "object", properties := some [("self", .obj 0)] }]

/-- A two-node cycle through `items`. -/
def itemsCycleDoc : SchemaStore :=
  [{ type := some "array", items := some (.single (.obj 1)) },
   { type := some "array", items := some (.single (.obj 0)) }]

/-- The rule `{feature: 'recursive'}`. -/
def recursiveRule : ConstraintRule := .simple "recursive" none none none

/-- Claim C6: validateSchemaConstraints terminates on every finite schema
document, including documents whose node graph contains cycles: the fuel
`store.length + 1` supplied by `runTraversal` always suffices, because each
distinct node identity is entered at most once per traversal (the visited
set stops descent on re-encounter whether or not `recursive` is
unsupported). -/
theorem c6_traversal_terminates :
    ∀ (store : SchemaStore) (cons : ResolvedConstraints) (rootId : Nat),
      (runTraversal store rootId cons).isSome := by
  intro store cons rootId
  obtain ⟨st', h, -, -⟩ :=
    traverse_total store cons (store.length + 1) rootId [] true initialState
      ⟨List.nodup_nil, by intro v hv; simp [initialState] at hv⟩
      (by simp [initialState])
  rw [runTraversal, h]
  rfl

/-- Claim C1 (the code at the failing input): under the rule
`{feature: 'minItems', allowedValues: [0, 1]}` the engine reports a
`minItems` issue even for the allowed value `0` — `isFeatureUnsupported`
never consults `allowedValues` — and likewise (as the claim correctly
states) exactly one issue for the value `2`. -/
theorem c1_minItems_allowlist_ignored :
    validateSchemaConstraints minItemsZeroDoc 0 (mkConstraints [minItemsAllowRule]) =
      [⟨[], "minItems", "minItems only supports values 0 and 1"⟩] ∧
    validateSchemaConstraints minItemsTwoDoc 0 (mkConstraints [minItemsAllowRule]) =
      [⟨[], "minItems", "minItems only supports values 0 and 1"⟩] := ⟨rfl, rfl⟩

/-- Claim C4: exact-string registry entries always win over regex entries;
otherwise the regex entries are scanned in reverse insertion order and the
first match wins, so of two matching regex entries the one registered
later prevails (shown also on a concrete two-regex registry). -/
theorem c4_registry_precedence :
    (∀ (reg : Registry) (provider modelId : String) (c : ProviderConstraints),
      exactLookup reg (provider ++ "/" ++ modelId) = some c →
      resolveConstraints reg provider modelId = (mkResolved c modelId, [])) ∧
    (∀ (reg : Registry) (provider modelId : String) (c : ProviderConstraints),
      exactLookup reg (provider ++ "/" ++ modelId) = none →
      regexLookup reg (provider ++ "/" ++ modelId) = some c →
      resolveConstraints reg provider modelId = (mkResolved c modelId, [])) ∧
    (∀ (cA cB : ProviderConstraints),
      resolveConstraints
        (registrySet (registrySet [] (.regex 1 (fun _ => true)) cA)
          (.regex 2 (fun _ => true)) cB) "x" "y" = (mkResolved cB "y", [])) := by
  refine ⟨?_, ?_, ?_⟩
  · intro reg provider modelId c h
    rw [resolveConstraints]
    simp only [h]
  · intro reg provider modelId c h1 h2
    rw [resolveConstraints]
    simp only [h1, h2]
  · intro cA cB
    rfl

/-- Witness for C4: a registry holding the exact entry
`openai/gpt-4o ↦ openaiConstraints` resolves that identifier to it. -/
theorem c4_registry_precedence_witness :
    resolveConstraints [(.str "openai/gpt-4o", openaiConstraints)] "openai" "gpt-4o" =
      (mkResolved openaiConstraints "gpt-4o", []) :=
  c4_registry_precedence.1 [(.str "openai/gpt-4o", openaiConstraints)]
    "openai" "gpt-4o" openaiConstraints rfl

/-- Claim C8: resolving an identifier matched by no registry entry does not
fail: it returns a permissive rule set (empty unsupported list, empty
custom-validator list) labelled with the input provider name, and emits the
unknown-model warning through the logging collaborator. -/
theorem c8_unknown_model_failopen :
    ∀ (reg : Registry) (provider modelId : String),
      exactLookup reg (provider ++ "/" ++ modelId) = none →
      regexLookup reg (provider ++ "/" ++ modelId) = none →
      resolveConstraints reg provider modelId =
        (⟨provider, modelId, [], [], none⟩,
         [unknownModelWarning (provider ++ "/" ++ modelId)]) := by
  intro reg provider modelId h1 h2
  rw [resolveConstraints]
  simp only [h1, h2]

/-- Witness for C8: the empty registry resolves `meta/llama-3` to the
permissive default with a warning. -/
theorem c8_unknown_model_failopen_witness :
    resolveConstraints [] "meta" "llama-3" =
      (⟨"meta", "llama-3", [], [], none⟩, [unknownModelWarning "meta/llama-3"]) :=
  c8_unknown_model_failopen [] "meta" "llama-3" rfl rfl

/-- Claim C9: registering an alias entry naming a built-in provider stores
that provider's static rule set under the given pattern; any other alias
name raises the `Unknown provider` error listing the valid provider names,
and (the error being raised before the `Map.set`) no new binding is
produced. -/
theorem c9_alias_registration :
    (∀ (reg : Registry) (pat : ProviderPattern),
      registerEntry reg (.withProvider pat "openai") =
        .ok (registrySet reg pat openaiConstraints) ∧
      registerEntry reg (.withProvider pat "anthropic") =
        .ok (registrySet reg pat anthropicConstraints) ∧
      registerEntry reg (.withProvider pat "google") =
        .ok (registrySet reg pat googleConstraints)) ∧
    (∀ (reg : Registry) (pat : ProviderPattern) (name : String),
      builtInProviders name = none →
      registerEntry reg (.withProvider pat name) =
        .error ("Unknown provider \"" ++ name ++
          "\". Available providers: openai, anthropic, google")) := by
  constructor
  · intro reg pat
    exact ⟨rfl, rfl, rfl⟩
  · intro reg pat name h
    rw [registerEntry]
    simp only [h]

/-- Witness for C9: the alias name `mistral` is rejected with the error
listing the three valid providers. -/
theorem c9_alias_registration_witness :
    registerEntry [] (.withProvider (.str "m") "mistral") =
      .error "Unknown provider \"mistral\". Available providers: openai, anthropic, google" :=
  c9_alias_registration.2 [] (.str "m") "mistral" rfl

/-!
## The rule fields the engine actually consults (C10 machinery)
-/

/-- Dropping the rule fields the traversal engine never reads: the
allow-list of a simple rule and the validate function of a custom rule (a
custom rule becomes a simple rule with the same feature and context and no
message, exactly how `isFeatureUnsupported` and `getFeatureMessage` see
it). -/
def ConstraintRule.eraseExtras : ConstraintRule → ConstraintRule
  | .simple f c m _ => .simple f c m none
  | .custom f c _ => .simple f c none none

theorem ConstraintRule.eraseExtras_feature (r : ConstraintRule) :
    r.eraseExtras.feature = r.feature := by cases r <;> rfl

theorem ConstraintRule.eraseExtras_context (r : ConstraintRule) :
    r.eraseExtras.context = r.context := by cases r <;> rfl

theorem ConstraintRule.eraseExtras_message (r : ConstraintRule) :
    r.eraseExtras.message = r.message := by cases r <;> rfl

theorem isFeatureUnsupported_erase (f : String) (rules : List ConstraintRule)
    (ctx : Option FeatureContext) :
    isFeatureUnsupported f (rules.map ConstraintRule.eraseExtras) ctx =
      isFeatureUnsupported f rules ctx := by
  induction rules with
  | nil => rfl
  | cons r rs ih =>
    simp only [List.map_cons, isFeatureUnsupported, List.any_cons] at ih ⊢
    rw [ConstraintRule.eraseExtras_feature, ConstraintRule.eraseExtras_context, ih]

theorem getFeatureMessage_erase (f : String) (rules : List ConstraintRule)
    (d : String) :
    getFeatureMessage f (rules.map ConstraintRule.eraseExtras) d =
      getFeatureMessage f rules d := by
  rw [getFeatureMessage, getFeatureMessage, List.find?_map]
  have hp : ((fun r : ConstraintRule => r.feature == f) ∘ ConstraintRule.eraseExtras) =
      (fun r : ConstraintRule => r.feature == f) := by
    funext r
    simp only [Function.comp_apply, ConstraintRule.eraseExtras_feature]
  rw [hp]
  cases h : rules.find? (fun r => r.feature == f) with
  | none => rfl
  | some r =>
    simp only [Option.map_some']
    rw [ConstraintRule.eraseExtras_message]

theorem checkCompositionKeywords_erase (node : SchemaNode)
    (rules : List ConstraintRule) (path : List String) (isRoot : Bool) :
    checkCompositionKeywords node (rules.map ConstraintRule.eraseExtras) path isRoot =
      checkCompositionKeywords node rules path isRoot := by
  simp only [checkCompositionKeywords, isFeatureUnsupported_erase,
    getFeatureMessage_erase]

theorem checkConditionalKeywords_erase (node : SchemaNode)
    (rules : List ConstraintRule) (path : List String) :
    checkConditionalKeywords node (rules.map ConstraintRule.eraseExtras) path =
      checkConditionalKeywords node rules path := by
  simp only [checkConditionalKeywords, isFeatureUnsupported_erase,
    getFeatureMessage_erase]

theorem checkValidationKeywords_erase (node : SchemaNode)
    (rules : List ConstraintRule) (path : List String) :
    checkValidationKeywords node (rules.map ConstraintRule.eraseExtras) path =
      checkValidationKeywords node rules path := by
  simp only [checkValidationKeywords, keywordCheck, isFeatureUnsupported_erase,
    getFeatureMessage_erase]

theorem checkObjectConstraints_erase (node : SchemaNode)
    (rules : List ConstraintRule) (path : List String) :
    checkObjectConstraints node (rules.map ConstraintRule.eraseExtras) path =
      checkObjectConstraints node rules path := by
  simp only [checkObjectConstraints, isFeatureUnsupported_erase,
    getFeatureMessage_erase]

theorem checkArrayConstraints_erase (node : SchemaNode)
    (rules : List ConstraintRule) (path : List String) :
    checkArrayConstraints node (rules.map ConstraintRule.eraseExtras) path =
      checkArrayConstraints node rules path := by
  simp only [checkArrayConstraints, isFeatureUnsupported_erase,
    getFeatureMessage_erase]

/-- Erasing the unread rule fields of a whole rule set. -/
def ResolvedConstraints.eraseRuleExtras (cons : ResolvedConstraints) :
    ResolvedConstraints :=
  { cons with unsupported := cons.unsupported.map ConstraintRule.eraseExtras }

theorem stepsOf_erase (cons : ResolvedConstraints) (node : SchemaNode)
    (path : List String) (isRoot : Bool) :
    stepsOf cons.eraseRuleExtras node path isRoot = stepsOf cons node path isRoot := by
  simp only [stepsOf, ResolvedConstraints.eraseRuleExtras,
    checkCompositionKeywords_erase, checkConditionalKeywords_erase,
    checkValidationKeywords_erase, checkObjectConstraints_erase,
    checkArrayConstraints_erase]

theorem goSteps_congr {r1 r2 : Nat → List String → TravState → Option TravState}
    (h : ∀ id p st, r1 id p st = r2 id p st) :
    ∀ (steps : List TravStep) (path : List String) (st : TravState),
      goSteps r1 path steps st = goSteps r2 path steps st := by
  intro steps
  induction steps with
  | nil => intro path st; rfl
  | cons step rest ih =>
    intro path st
    cases step with
    | emit issues =>
      simp only [goSteps]
      exact ih path _
    | visit rel id =>
      simp only [goSteps, h id (path ++ rel) st]
      cases r2 id (path ++ rel) st with
      | none => rfl
      | some st1 => exact ih path st1

theorem traverse_erase (store : SchemaStore) (cons : ResolvedConstraints) :
    ∀ (fuel id : Nat) (path : List String) (isRoot : Bool) (st : TravState),
      traverseSchema store cons.eraseRuleExtras fuel id path isRoot st =
        traverseSchema store cons fuel id path isRoot st := by
  intro fuel
  induction fuel with
  | zero => intro id path isRoot st; rfl
  | succ fuel ih =>
    intro id path isRoot st
    rw [traverseSchema, traverseSchema]
    by_cases hvis : st.visited.contains id = true
    · rw [if_pos hvis, if_pos hvis]
      have hfu : isFeatureUnsupported "recursive" cons.eraseRuleExtras.unsupported none =
          isFeatureUnsupported "recursive" cons.unsupported none :=
        isFeatureUnsupported_erase "recursive" cons.unsupported none
      rw [hfu]
    · rw [if_neg hvis, if_neg hvis]
      cases store.get? id with
      | none => rfl
      | some node =>
        simp only [stepsOf_erase]
        exact goSteps_congr (fun cid cpath cst => ih cid cpath false cst) _ path _

/-- The document `{properties: {a: {}}}` (property `a` not listed in
`required`): OpenAI's `optionalProperties` custom rule would flag it if its
validate function were ever invoked. -/
def optionalPropsDoc : SchemaStore :=
  [{ type := some "object", properties := some [("a", .obj 1)] },
   { type := some "string" }]

/-- A probe validator that reports on every visited node. -/
def probeValidator : CustomValidator :=
  ⟨"probe", fun _ path _ => [⟨path, "probe", "probe ran"⟩]⟩

/-- Claim C10: custom rules stored inside the `unsupported` list are inert —
the engine's output is unchanged when every unsupported rule is replaced by
a bare (feature, context, message) record with its validate function and
allow-list dropped, because `isFeatureUnsupported` matches on feature and
context only.  In particular the full OpenAI rule set (with its
`optionalProperties` and `enum` custom rules) accepts a document with an
optional property.  The validators in the separate `customValidators`
sequence, by contrast, do run on every visited node. -/
theorem c10_unsupported_custom_rules_inert :
    (∀ (store : SchemaStore) (rootId : Nat) (cons : ResolvedConstraints),
      validateSchemaConstraints store rootId cons.eraseRuleExtras =
        validateSchemaConstraints store rootId cons) ∧
    (∀ (f : String) (rules : List ConstraintRule) (ctx : Option FeatureContext),
      isFeatureUnsupported f (rules.map ConstraintRule.eraseExtras) ctx =
        isFeatureUnsupported f rules ctx) ∧
    validateSchemaConstraints optionalPropsDoc 0 (mkResolved openaiConstraints "gpt-4o") =
      [] ∧
    validateSchemaConstraints optionalPropsDoc 0
      ⟨"provider", "model", [], [probeValidator], none⟩ =
      [⟨["properties", "a"], "probe", "probe ran"⟩, ⟨[], "probe", "probe ran"⟩] := by
  refine ⟨?_, isFeatureUnsupported_erase, rfl, rfl⟩
  intro store rootId cons
  rw [validateSchemaConstraints, validateSchemaConstraints, runTraversal, runTraversal,
    traverse_erase]

/-!
## Context sensitivity (C2, C3)
-/

/-- The rule `{feature: 'oneOf', context: 'root'}`. -/
def oneOfRootRule : ConstraintRule := .simple "oneOf" (some .root) none none

/-- The rule `{feature: 'oneOf', context: 'nested'}`. -/
def oneOfNestedRule : ConstraintRule := .simple "oneOf" (some .nested) none none

/-- The unconditional rule `{feature: 'oneOf'}`. -/
def oneOfAnyRule : ConstraintRule := .simple "oneOf" none none none

/-- The unconditional rule `{feature: 'anyOf'}`. -/
def anyOfAnyRule : ConstraintRule := .simple "anyOf" none none none

/-- The rule `{feature: 'minimum', context: 'root'}`. -/
def minimumRootRule : ConstraintRule := .simple "minimum" (some .root) none none

/-- The rule `{feature: 'minimum', context: 'nested'}`. -/
def minimumNestedRule : ConstraintRule := .simple "minimum" (some .nested) none none

/-- Claim C2 (counterexample): a rule binding `minimum` to context `root`
nevertheless fires on a nested occurrence of `minimum`, because
`checkValidationKeywords` passes no context to `isFeatureUnsupported` and
an absent caller context matches every rule.  The claim's assertion that a
root-bound rule "never fires inside a nested sub-schema" for validation
keywords is therefore false. -/
theorem c2_context_counterexample :
    validateSchemaConstraints nestedMinimumDoc 0 (mkConstraints [minimumRootRule]) =
      [⟨["properties", "a"], "minimum", "minimum is not supported"⟩] := rfl

/-- Claim C2 (amended): context sensitivity holds for the composition
checks, which pass the node's context: a `oneOf` rule bound to `root`
produces issues only with feature `oneOf` at path `[]` (and does fire on a
root-level `oneOf`), a `oneOf` rule bound to `nested` produces issues only
at nonempty paths (and does fire on a nested `oneOf`).  For the validation
keywords the context binding is ignored: a root-bound `minimum` rule fires
on a nested `minimum` and a nested-bound `minimum` rule fires at the root. -/
theorem c2_context_sensitivity_amended :
    (∀ (store : SchemaStore) (rootId : Nat),
      ∀ iss ∈ validateSchemaConstraints store rootId (mkConstraints [oneOfRootRule]),
        iss.feature = "oneOf" ∧ iss.path = []) ∧
    validateSchemaConstraints rootOneOfDoc 0 (mkConstraints [oneOfRootRule]) =
      [⟨[], "oneOf", "oneOf is not supported"⟩] ∧
    (∀ (store : SchemaStore) (rootId : Nat),
      ∀ iss ∈ validateSchemaConstraints store rootId (mkConstraints [oneOfNestedRule]),
        iss.feature = "oneOf" ∧ iss.path ≠ []) ∧
    validateSchemaConstraints nestedOneOfDoc 0 (mkConstraints [oneOfNestedRule]) =
      [⟨["properties", "animal"], "oneOf", "oneOf is not supported"⟩] ∧
    validateSchemaConstraints nestedMinimumDoc 0 (mkConstraints [minimumRootRule]) =
      [⟨["properties", "a"], "minimum", "minimum is not supported"⟩] ∧
    validateSchemaConstraints rootMinimumDoc 0 (mkConstraints [minimumNestedRule]) =
      [⟨[], "minimum", "minimum is not supported"⟩] := by
  refine ⟨?_, rfl, ?_, rfl, rfl, rfl⟩
  · -- root-bound oneOf: only (feature oneOf, path []) issues
    intro store rootId iss hiss
    set cons := mkConstraints [oneOfRootRule] with hcons
    have hstep : ∀ id node path isRoot, store.get? id = some node →
        (isRoot = true → path = []) →
        ∀ step ∈ stepsOf cons node path isRoot,
          StepOK (fun iss => iss.feature = "oneOf" ∧ iss.path = [])
            (fun p b => b = true → p = []) path step := by
      intro id node path isRoot _ hP step hmem
      have haux : ∀ (l : List String) (iss' : ValidationIssue),
          isFeatureUnsupported iss'.feature cons.unsupported none = true →
          iss'.feature ∈ l → "oneOf" ∈ l := by
        intro l iss' hfu hlist
        obtain ⟨rule, hrmem, hrfeat⟩ := isFeatureUnsupported_exists hfu
        have hrule : rule = oneOfRootRule := by
          simpa [hcons, mkConstraints] using hrmem
        rw [hrule] at hrfeat
        rw [← hrfeat] at hlist
        exact hlist
      rcases stepsOf_cases hmem with rfl | rfl | rfl | rfl | rfl | rfl |
        ⟨rel, cid, rfl, -⟩
      · simp only [StepOK]
        intro iss' hiss'
        obtain ⟨hpath, -, ⟨rule, hrmem, hrfeat⟩, hdisj⟩ :=
          checkCompositionKeywords_cases hiss'
        have hrule : rule = oneOfRootRule := by
          simpa [hcons, mkConstraints] using hrmem
        rw [hrule] at hrfeat
        have hfeat : iss'.feature = "oneOf" := hrfeat.symm
        rcases hdisj with hd | ⟨hd, -⟩ | ⟨hd, -, -⟩ | ⟨hd, -⟩ | ⟨-, hfu⟩ | hd
        · rw [hfeat] at hd; exact absurd hd (by decide)
        · rw [hfeat] at hd; exact absurd hd (by decide)
        · rw [hfeat] at hd; exact absurd hd (by decide)
        · rw [hfeat] at hd; exact absurd hd (by decide)
        · cases isRoot with
          | false => exact absurd hfu (by decide)
          | true => exact ⟨hfeat, hpath.trans (hP rfl)⟩
        · rw [hfeat] at hd; exact absurd hd (by decide)
      · simp only [StepOK]
        intro iss' hiss'
        obtain ⟨-, -, hfu, hlist⟩ := checkConditionalKeywords_cases hiss'
        exact absurd (haux _ iss' hfu hlist) (by decide)
      · simp only [StepOK]
        intro iss' hiss'
        obtain ⟨-, -, hfu, hlist⟩ := checkValidationKeywords_cases hiss'
        exact absurd (haux _ iss' hfu hlist) (by decide)
      · simp only [StepOK]
        intro iss' hiss'
        obtain ⟨-, -, hfu, hlist⟩ := checkObjectConstraints_cases hiss'
        exact absurd (haux _ iss' hfu hlist) (by decide)
      · simp only [StepOK]
        intro iss' hiss'
        obtain ⟨-, -, hfu, hlist⟩ := checkArrayConstraints_cases hiss'
        exact absurd (haux _ iss' hfu hlist) (by decide)
      · simp only [StepOK]
        intro iss' hiss'
        simp [hcons, mkConstraints, runCustomValidators] at hiss'
      · simp only [StepOK]
        intro hcon
        exact absurd hcon (by simp)
    have hrec : ∀ (path : List String) (isRoot : Bool), (isRoot = true → path = []) →
        isFeatureUnsupported "recursive" cons.unsupported none = true →
        (⟨path, "recursive", "Recursive schemas are not supported"⟩ :
          ValidationIssue).feature = "oneOf" ∧
        (⟨path, "recursive", "Recursive schemas are not supported"⟩ :
          ValidationIssue).path = [] := by
      intro path isRoot _ hru
      exact absurd hru (by decide)
    cases hrun : runTraversal store rootId cons with
    | none =>
      rw [validateSchemaConstraints, hrun] at hiss
      simp at hiss
    | some st' =>
      rw [validateSchemaConstraints, hrun] at hiss
      rw [runTraversal] at hrun
      rcases traverse_pred store cons _ _ hstep hrec (store.length + 1) rootId [] true
        initialState st' (fun _ => rfl) hrun iss hiss with hin | hp
      · simp [initialState] at hin
      · exact hp
  · -- nested-bound oneOf: only (feature oneOf, nonempty path) issues
    intro store rootId iss hiss
    set cons := mkConstraints [oneOfNestedRule] with hcons
    have hstep : ∀ id node path isRoot, store.get? id = some node →
        (isRoot = false → path ≠ []) →
        ∀ step ∈ stepsOf cons node path isRoot,
          StepOK (fun iss => iss.feature = "oneOf" ∧ iss.path ≠ [])
            (fun p b => b = false → p ≠ []) path step := by
      intro id node path isRoot _ hP step hmem
      have haux : ∀ (l : List String) (iss' : ValidationIssue),
          isFeatureUnsupported iss'.feature cons.unsupported none = true →
          iss'.feature ∈ l → "oneOf" ∈ l := by
        intro l iss' hfu hlist
        obtain ⟨rule, hrmem, hrfeat⟩ := isFeatureUnsupported_exists hfu
        have hrule : rule = oneOfNestedRule := by
          simpa [hcons, mkConstraints] using hrmem
        rw [hrule] at hrfeat
        rw [← hrfeat] at hlist
        exact hlist
      rcases stepsOf_cases hmem with rfl | rfl | rfl | rfl | rfl | rfl |
        ⟨rel, cid, rfl, hne⟩
      · simp only [StepOK]
        intro iss' hiss'
        obtain ⟨hpath, -, ⟨rule, hrmem, hrfeat⟩, hdisj⟩ :=
          checkCompositionKeywords_cases hiss'
        have hrule : rule = oneOfNestedRule := by
          simpa [hcons, mkConstraints] using hrmem
        rw [hrule] at hrfeat
        have hfeat : iss'.feature = "oneOf" := hrfeat.symm
        rcases hdisj with hd | ⟨hd, -⟩ | ⟨hd, -, -⟩ | ⟨hd, -⟩ | ⟨-, hfu⟩ | hd
        · rw [hfeat] at hd; exact absurd hd (by decide)
        · rw [hfeat] at hd; exact absurd hd (by decide)
        · rw [hfeat] at hd; exact absurd hd (by decide)
        · rw [hfeat] at hd; exact absurd hd (by decide)
        · cases isRoot with
          | true => exact absurd hfu (by decide)
          | false => exact ⟨hfeat, hpath ▸ hP rfl⟩
        · rw [hfeat] at hd; exact absurd hd (by decide)
      · simp only [StepOK]
        intro iss' hiss'
        obtain ⟨-, -, hfu, hlist⟩ := checkConditionalKeywords_cases hiss'
        exact absurd (haux _ iss' hfu hlist) (by decide)
      · simp only [StepOK]
        intro iss' hiss'
        obtain ⟨-, -, hfu, hlist⟩ := checkValidationKeywords_cases hiss'
        exact absurd (haux _ iss' hfu hlist) (by decide)
      · simp only [StepOK]
        intro iss' hiss'
        obtain ⟨-, -, hfu, hlist⟩ := checkObjectConstraints_cases hiss'
        exact absurd (haux _ iss' hfu hlist) (by decide)
      · simp only [StepOK]
        intro iss' hiss'
        obtain ⟨-, -, hfu, hlist⟩ := checkArrayConstraints_cases hiss'
        exact absurd (haux _ iss' hfu hlist) (by decide)
      · simp only [StepOK]
        intro iss' hiss'
        simp [hcons, mkConstraints, runCustomValidators] at hiss'
      · simp only [StepOK]
        intro _ hcon
        rw [List.append_eq_nil] at hcon
        exact hne hcon.2
    have hrec : ∀ (path : List String) (isRoot : Bool), (isRoot = false → path ≠ []) →
        isFeatureUnsupported "recursive" cons.unsupported none = true →
        (⟨path, "recursive", "Recursive schemas are not supported"⟩ :
          ValidationIssue).feature = "oneOf" ∧
        (⟨path, "recursive", "Recursive schemas are not supported"⟩ :
          ValidationIssue).path ≠ [] := by
      intro path isRoot _ hru
      exact absurd hru (by decide)
    cases hrun : runTraversal store rootId cons with
    | none =>
      rw [validateSchemaConstraints, hrun] at hiss
      simp at hiss
    | some st' =>
      rw [validateSchemaConstraints, hrun] at hiss
      rw [runTraversal] at hrun
      rcases traverse_pred store cons _ _ hstep hrec (store.length + 1) rootId [] true
        initialState st' (fun hcon => absurd hcon (by simp)) hrun iss hiss with hin | hp
      · simp [initialState] at hin
      · exact hp

/-- Claim C3: at the document root an `anyOf` keyword is governed
exclusively by `rootAnyOf` — for every rule set (without custom
validators) and every document, no issue with feature `anyOf` is ever
reported at the root path `[]` (third conjunct: an unconditional `anyOf`
rule stays silent on a root-level `anyOf` document) — whereas root-level
`oneOf` falls through to the plain `oneOf` rule: the document
`{oneOf: [{type:'string'}, {type:'number'}]}` against a rule set flagging
`oneOf` unconditionally yields exactly one issue with path `[]` and
feature `oneOf`. -/
theorem c3_root_composition_asymmetry :
    (∀ (rules : List ConstraintRule) (store : SchemaStore) (rootId : Nat)
      (p m : String),
      ∀ iss ∈ validateSchemaConstraints store rootId ⟨p, m, rules, [], none⟩,
        ¬(iss.feature = "anyOf" ∧ iss.path = [])) ∧
    validateSchemaConstraints rootOneOfDoc 0 (mkConstraints [oneOfAnyRule]) =
      [⟨[], "oneOf", "oneOf is not supported"⟩] ∧
    validateSchemaConstraints rootAnyOfDoc 0 (mkConstraints [anyOfAnyRule]) = [] := by
  refine ⟨?_, rfl, rfl⟩
  intro rules store rootId p m iss hiss
  set cons : ResolvedConstraints := ⟨p, m, rules, [], none⟩ with hcons
  have hstep : ∀ id node path isRoot, store.get? id = some node →
      (isRoot = false → path ≠ []) →
      ∀ step ∈ stepsOf cons node path isRoot,
        StepOK (fun iss => ¬(iss.feature = "anyOf" ∧ iss.path = []))
          (fun q b => b = false → q ≠ []) path step := by
    intro id node path isRoot _ hP step hmem
    rcases stepsOf_cases hmem with rfl | rfl | rfl | rfl | rfl | rfl |
      ⟨rel, cid, rfl, hne⟩
    · simp only [StepOK]
      intro iss' hiss'
      obtain ⟨hpath, -, -, hdisj⟩ := checkCompositionKeywords_cases hiss'
      rintro ⟨hf, hpe⟩
      rcases hdisj with hd | ⟨hd, -⟩ | ⟨-, hroot, -⟩ | ⟨hd, -⟩ | ⟨hd, -⟩ | hd
      · rw [hf] at hd; exact absurd hd (by decide)
      · rw [hf] at hd; exact absurd hd (by decide)
      · exact hP hroot (hpath.symm.trans hpe)
      · rw [hf] at hd; exact absurd hd (by decide)
      · rw [hf] at hd; exact absurd hd (by decide)
      · rw [hf] at hd; exact absurd hd (by decide)
    · simp only [StepOK]
      intro iss' hiss'
      obtain ⟨-, -, -, hlist⟩ := checkConditionalKeywords_cases hiss'
      rintro ⟨hf, -⟩
      rw [hf] at hlist
      exact absurd hlist (by decide)
    · simp only [StepOK]
      intro iss' hiss'
      obtain ⟨-, -, -, hlist⟩ := checkValidationKeywords_cases hiss'
      rintro ⟨hf, -⟩
      rw [hf] at hlist
      exact absurd hlist (by decide)
    · simp only [StepOK]
      intro iss' hiss'
      obtain ⟨-, -, -, hlist⟩ := checkObjectConstraints_cases hiss'
      rintro ⟨hf, -⟩
      rw [hf] at hlist
      exact absurd hlist (by decide)
    · simp only [StepOK]
      intro iss' hiss'
      obtain ⟨-, -, -, hlist⟩ := checkArrayConstraints_cases hiss'
      rintro ⟨hf, -⟩
      rw [hf] at hlist
      exact absurd hlist (by decide)
    · simp only [StepOK]
      intro iss' hiss'
      simp [hcons, runCustomValidators] at hiss'
    · simp only [StepOK]
      intro _ hcon
      rw [List.append_eq_nil] at hcon
      exact hne hcon.2
  have hrec : ∀ (path : List String) (isRoot : Bool), (isRoot = false → path ≠ []) →
      isFeatureUnsupported "recursive" cons.unsupported none = true →
      ¬((⟨path, "recursive", "Recursive schemas are not supported"⟩ :
          ValidationIssue).feature = "anyOf" ∧
        (⟨path, "recursive", "Recursive schemas are not supported"⟩ :
          ValidationIssue).path = []) := by
    rintro path isRoot _ _ ⟨hf, -⟩
    have hf' : ("recursive" : String) = "anyOf" := hf
    exact absurd hf' (by decide)
  cases hrun : runTraversal store rootId cons with
  | none =>
    rw [validateSchemaConstraints, hrun] at hiss
    simp at hiss
  | some st' =>
    rw [validateSchemaConstraints, hrun] at hiss
    rw [runTraversal] at hrun
    rcases traverse_pred store cons _ _ hstep hrec (store.length + 1) rootId [] true
      initialState st' (fun hcon => absurd hcon (by simp)) hrun iss hiss with hin | hp
    · simp [initialState] at hin
    · exact hp

/-- Witness for C2: the root-level issue produced by the root-bound `oneOf`
rule on the root-`oneOf` document indeed has feature `oneOf` and path `[]`. -/
theorem c2_context_sensitivity_amended_witness :
    (⟨[], "oneOf", "oneOf is not supported"⟩ : ValidationIssue).feature = "oneOf" ∧
    (⟨[], "oneOf", "oneOf is not supported"⟩ : ValidationIssue).path = [] :=
  c2_context_sensitivity_amended.1 rootOneOfDoc 0
    ⟨[], "oneOf", "oneOf is not supported"⟩ (by decide)

/-- Witness for C3: the issue the unconditional `oneOf` rule produces on
the root-`oneOf` document is not a root-level `anyOf` issue. -/
theorem c3_root_composition_asymmetry_witness :
    ¬((⟨[], "oneOf", "oneOf is not supported"⟩ : ValidationIssue).feature = "anyOf" ∧
      (⟨[], "oneOf", "oneOf is not supported"⟩ : ValidationIssue).path = []) :=
  c3_root_composition_asymmetry.1 [oneOfAnyRule] rootOneOfDoc 0 "p" "m"
    ⟨[], "oneOf", "oneOf is not supported"⟩ (by decide)

/-!
## Compliant documents (C7)
-/

/-- Claim C7 (amended): a rule set without custom validators whose
unsupported features have no instance in the document produces no issues.
"No instance" is: for every keyword feature, no node of the store triggers
its check (`staticTrigger`), and when a `recursive` rule is present the
traversal re-encounters no node.  In particular the empty rule set yields
empty issues on every document. -/
theorem c7_compliant_documents_empty :
    (∀ (store : SchemaStore) (rootId : Nat) (rules : List ConstraintRule)
      (p m : String),
      (∀ rule ∈ rules, ∀ id node, store.get? id = some node →
        staticTrigger node rule.feature = false) →
      (isFeatureUnsupported "recursive" rules none = true →
        reencountersOf store rootId ⟨p, m, rules, [], none⟩ = []) →
      validateSchemaConstraints store rootId ⟨p, m, rules, [], none⟩ = []) ∧
    (∀ (store : SchemaStore) (rootId : Nat) (p m : String),
      validateSchemaConstraints store rootId ⟨p, m, [], [], none⟩ = []) := by
  have main : ∀ (store : SchemaStore) (rootId : Nat) (rules : List ConstraintRule)
      (p m : String),
      (∀ rule ∈ rules, ∀ id node, store.get? id = some node →
        staticTrigger node rule.feature = false) →
      (isFeatureUnsupported "recursive" rules none = true →
        reencountersOf store rootId ⟨p, m, rules, [], none⟩ = []) →
      validateSchemaConstraints store rootId ⟨p, m, rules, [], none⟩ = [] := by
    intro store rootId rules p m hstatic hnorec
    set cons : ResolvedConstraints := ⟨p, m, rules, [], none⟩ with hcons
    have hstep : ∀ id node path isRoot, store.get? id = some node → True →
        ∀ step ∈ stepsOf cons node path isRoot,
          StepOK (fun _ => False) (fun _ _ => True) path step := by
      intro id node path isRoot hget _ step hmem
      rcases stepsOf_cases hmem with rfl | rfl | rfl | rfl | rfl | rfl |
        ⟨rel, cid, rfl, -⟩
      · simp only [StepOK]
        intro iss hiss
        obtain ⟨-, htrig, ⟨rule, hrmem, hrfeat⟩, -⟩ :=
          checkCompositionKeywords_cases hiss
        have hfalse := hstatic rule hrmem id node hget
        rw [hrfeat, htrig] at hfalse
        exact absurd hfalse (by decide)
      · simp only [StepOK]
        intro iss hiss
        obtain ⟨-, htrig, hfu, -⟩ := checkConditionalKeywords_cases hiss
        obtain ⟨rule, hrmem, hrfeat⟩ := isFeatureUnsupported_exists hfu
        have hfalse := hstatic rule hrmem id node hget
        rw [hrfeat, htrig] at hfalse
        exact absurd hfalse (by decide)
      · simp only [StepOK]
        intro iss hiss
        obtain ⟨-, htrig, hfu, -⟩ := checkValidationKeywords_cases hiss
        obtain ⟨rule, hrmem, hrfeat⟩ := isFeatureUnsupported_exists hfu
        have hfalse := hstatic rule hrmem id node hget
        rw [hrfeat, htrig] at hfalse
        exact absurd hfalse (by decide)
      · simp only [StepOK]
        intro iss hiss
        obtain ⟨-, htrig, hfu, -⟩ := checkObjectConstraints_cases hiss
        obtain ⟨rule, hrmem, hrfeat⟩ := isFeatureUnsupported_exists hfu
        have hfalse := hstatic rule hrmem id node hget
        rw [hrfeat, htrig] at hfalse
        exact absurd hfalse (by decide)
      · simp only [StepOK]
        intro iss hiss
        obtain ⟨-, htrig, hfu, -⟩ := checkArrayConstraints_cases hiss
        obtain ⟨rule, hrmem, hrfeat⟩ := isFeatureUnsupported_exists hfu
        have hfalse := hstatic rule hrmem id node hget
        rw [hrfeat, htrig] at hfalse
        exact absurd hfalse (by decide)
      · simp only [StepOK]
        intro iss hiss
        simp [hcons, runCustomValidators] at hiss
      · exact trivial
    cases hrun : runTraversal store rootId cons with
    | none => rw [validateSchemaConstraints, hrun]
    | some st' =>
      rw [validateSchemaConstraints, hrun]
      have hsub : ∀ iss ∈ st'.issues, iss ∈ initialState.issues ∨ False := by
        by_cases hru : isFeatureUnsupported "recursive" cons.unsupported none = true
        · have hre : st'.reencounters = initialState.reencounters := by
            have h3 := hnorec hru
            rw [reencountersOf, hrun] at h3
            exact h3
          rw [runTraversal] at hrun
          exact traverse_pred_noreenc store cons _ _ hstep (store.length + 1) rootId
            [] true initialState st' trivial hrun hre
        · rw [runTraversal] at hrun
          exact traverse_pred store cons _ _ hstep
            (fun _ _ _ hru' => absurd hru' hru) (store.length + 1) rootId
            [] true initialState st' trivial hrun
      rw [List.eq_nil_iff_forall_not_mem]
      intro iss hiss
      rcases hsub iss hiss with hin | hfalse
      · simp [initialState] at hin
      · exact hfalse
  refine ⟨main, ?_⟩
  intro store rootId p m
  refine main store rootId [] p m ?_ ?_
  · intro rule hrmem
    simp at hrmem
  · intro hru
    simp [isFeatureUnsupported] at hru

/-- Witness for C7: a rule set flagging `oneOf` and `recursive` yields no
issues on a compliant object document (no `oneOf` anywhere, acyclic). -/
theorem c7_compliant_documents_empty_witness :
    validateSchemaConstraints nestedMinimumDoc 0
      ⟨"p", "m", [oneOfAnyRule, recursiveRule], [], none⟩ = [] := by
  apply c7_compliant_documents_empty.1 nestedMinimumDoc 0 [oneOfAnyRule, recursiveRule]
    "p" "m"
  · intro rule hrmem id node hget
    have hr : rule = oneOfAnyRule ∨ rule = recursiveRule := by simpa using hrmem
    rcases id with - | - | id
    · simp only [nestedMinimumDoc, List.get?_cons_zero, Option.some.injEq] at hget
      subst hget
      rcases hr with rfl | rfl <;> decide
    · simp only [nestedMinimumDoc, List.get?_cons_succ, List.get?_cons_zero,
        Option.some.injEq] at hget
      subst hget
      rcases hr with rfl | rfl <;> decide
    · simp only [nestedMinimumDoc, List.get?_cons_succ, List.get?_nil] at hget
      cases hget
  · intro _
    rfl

/-- Claim C7 (counterexample): the claim quantifies over all rule sets, but
a rule set whose `customValidators` list contains a validator that always
reports makes it false — the document `{}` contains no instance of any
feature of the empty unsupported list, yet the issue list is nonempty. -/
theorem c7_counterexample :
    validateSchemaConstraints [{}] 0
      ⟨"provider", "model", [], [probeValidator], none⟩ =
      [⟨[], "probe", "probe ran"⟩] := rfl

/-!
## Recursive issues are in bijection with re-encounters (C5)
-/

/-- The recursive issue reported at a re-encounter path. -/
def recursiveIssueAt (path : List String) : ValidationIssue :=
  ⟨path, "recursive", "Recursive schemas are not supported"⟩

/-- None of the built-in keyword checks ever emits a `recursive` issue. -/
theorem filter_recursive_checks (node : SchemaNode) (rules : List ConstraintRule)
    (path : List String) (isRoot : Bool) :
    (checkCompositionKeywords node rules path isRoot).filter
      (fun iss => iss.feature == "recursive") = [] ∧
    (checkConditionalKeywords node rules path).filter
      (fun iss => iss.feature == "recursive") = [] ∧
    (checkValidationKeywords node rules path).filter
      (fun iss => iss.feature == "recursive") = [] ∧
    (checkObjectConstraints node rules path).filter
      (fun iss => iss.feature == "recursive") = [] ∧
    (checkArrayConstraints node rules path).filter
      (fun iss => iss.feature == "recursive") = [] := by
  refine ⟨?_, ?_, ?_, ?_, ?_⟩
  · rw [List.filter_eq_nil_iff]
    intro iss hiss
    obtain ⟨-, -, -, hdisj⟩ := checkCompositionKeywords_cases hiss
    rcases hdisj with hd | ⟨hd, -⟩ | ⟨hd, -, -⟩ | ⟨hd, -⟩ | ⟨hd, -⟩ | hd <;>
      simp [hd]
  · rw [List.filter_eq_nil_iff]
    intro iss hiss
    obtain ⟨-, -, -, hlist⟩ := checkConditionalKeywords_cases hiss
    simp only [List.mem_cons, List.mem_singleton, List.not_mem_nil, or_false] at hlist
    rcases hlist with hd | hd | hd <;> simp [hd]
  · rw [List.filter_eq_nil_iff]
    intro iss hiss
    obtain ⟨-, -, -, hlist⟩ := checkValidationKeywords_cases hiss
    simp only [List.mem_cons, List.mem_singleton, List.not_mem_nil, or_false] at hlist
    rcases hlist with hd | hd | hd | hd | hd | hd | hd | hd | hd <;> simp [hd]
  · rw [List.filter_eq_nil_iff]
    intro iss hiss
    obtain ⟨-, -, -, hlist⟩ := checkObjectConstraints_cases hiss
    simp only [List.mem_cons, List.mem_singleton, List.not_mem_nil, or_false] at hlist
    rcases hlist with hd | hd <;> simp [hd]
  · rw [List.filter_eq_nil_iff]
    intro iss hiss
    obtain ⟨-, -, -, hlist⟩ := checkArrayConstraints_cases hiss
    simp only [List.mem_cons, List.mem_singleton, List.not_mem_nil, or_false] at hlist
    rcases hlist with hd | hd | hd | hd | hd <;> simp [hd]

theorem goSteps_recFilter
    (recurse : Nat → List String → TravState → Option TravState)
    (hrec : ∀ id p st st', recurse id p st = some st' →
      ∃ dr, st'.reencounters = st.reencounters ++ dr ∧
        st'.issues.filter (fun iss => iss.feature == "recursive") =
          st.issues.filter (fun iss => iss.feature == "recursive") ++
            dr.map recursiveIssueAt) :
    ∀ (steps : List TravStep) (path : List String) (st st' : TravState),
      (∀ step ∈ steps, ∀ issues, step = TravStep.emit issues →
        issues.filter (fun iss => iss.feature == "recursive") = []) →
      goSteps recurse path steps st = some st' →
      ∃ dr, st'.reencounters = st.reencounters ++ dr ∧
        st'.issues.filter (fun iss => iss.feature == "recursive") =
          st.issues.filter (fun iss => iss.feature == "recursive") ++
            dr.map recursiveIssueAt := by
  intro steps
  induction steps with
  | nil =>
    intro path st st' hsteps h
    simp only [goSteps, Option.some.injEq] at h
    subst h
    exact ⟨[], by simp, by simp⟩
  | cons step rest ih =>
    intro path st st' hsteps h
    have hhead := hsteps step (List.mem_cons_self step rest)
    have htail := fun s hs => hsteps s (List.mem_cons_of_mem step hs)
    cases step with
    | emit issues =>
      simp only [goSteps] at h
      obtain ⟨dr, hre, hfil⟩ :=
        ih path { st with issues := st.issues ++ issues } st' htail h
      refine ⟨dr, hre, ?_⟩
      rw [hfil]
      have : ({ st with issues := st.issues ++ issues } : TravState).issues.filter
          (fun iss => iss.feature == "recursive") =
          st.issues.filter (fun iss => iss.feature == "recursive") := by
        have hnil := hhead issues rfl
        simp only [List.filter_append, hnil, List.append_nil]
      rw [this]
    | visit rel id =>
      simp only [goSteps] at h
      cases hres : recurse id (path ++ rel) st with
      | none => rw [hres] at h; cases h
      | some st1 =>
        rw [hres] at h
        obtain ⟨dr1, hre1, hfil1⟩ := hrec id (path ++ rel) st st1 hres
        obtain ⟨dr2, hre2, hfil2⟩ := ih path st1 st' htail h
        refine ⟨dr1 ++ dr2, ?_, ?_⟩
        · rw [hre2, hre1, List.append_assoc]
        · rw [hfil2, hfil1, List.map_append, List.append_assoc]

theorem traverse_recFilter (store : SchemaStore) (cons : ResolvedConstraints)
    (hcv : cons.customValidators = []) :
    ∀ (fuel id : Nat) (path : List String) (isRoot : Bool) (st st' : TravState),
      isFeatureUnsupported "recursive" cons.unsupported none = true →
      traverseSchema store cons fuel id path isRoot st = some st' →
      ∃ dr, st'.reencounters = st.reencounters ++ dr ∧
        st'.issues.filter (fun iss => iss.feature == "recursive") =
          st.issues.filter (fun iss => iss.feature == "recursive") ++
            dr.map recursiveIssueAt := by
  intro fuel
  induction fuel with
  | zero => intro id path isRoot st st' hru h; simp [traverseSchema] at h
  | succ fuel ih =>
    intro id path isRoot st st' hru h
    rw [traverseSchema] at h
    by_cases hvis : st.visited.contains id = true
    · rw [if_pos hvis] at h
      have h' := Option.some.inj h
      subst h'
      refine ⟨[path], rfl, ?_⟩
      rw [if_pos hru]
      show (st.issues ++ [recursiveIssueAt path]).filter
          (fun iss => iss.feature == "recursive") =
        st.issues.filter (fun iss => iss.feature == "recursive") ++
          [path].map recursiveIssueAt
      rw [List.filter_append]
      rfl
    · rw [if_neg hvis] at h
      cases hget : store.get? id with
      | none =>
        rw [hget] at h
        have h' := Option.some.inj h
        subst h'
        exact ⟨[], by simp, by simp⟩
      | some node =>
        rw [hget] at h
        have hsteps : ∀ step ∈ stepsOf cons node path isRoot,
            ∀ issues, step = TravStep.emit issues →
              issues.filter (fun iss => iss.feature == "recursive") = [] := by
          intro step hmem issues heq
          obtain ⟨hc1, hc2, hc3, hc4, hc5⟩ :=
            filter_recursive_checks node cons.unsupported path isRoot
          rcases stepsOf_cases hmem with rfl | rfl | rfl | rfl | rfl | rfl |
            ⟨rel, cid, rfl, -⟩
          · injection heq with heq; subst heq; exact hc1
          · injection heq with heq; subst heq; exact hc2
          · injection heq with heq; subst heq; exact hc3
          · injection heq with heq; subst heq; exact hc4
          · injection heq with heq; subst heq; exact hc5
          · injection heq with heq
            subst heq
            rw [hcv, runCustomValidators_nil]
            rfl
          · cases heq
        exact goSteps_recFilter _
          (fun cid cpath cst cst' hres => ih cid cpath false cst cst' hru hres)
          (stepsOf cons node path isRoot) path
          { st with visited := id :: st.visited } st' hsteps h

/-- Claim C5 (counterexample): a document in which the (already-visited)
root is re-encountered under two different properties yields two
`recursive` issues, not exactly one — each re-encounter reports. -/
theorem c5_single_recursive_counterexample :
    validateSchemaConstraints doubleRefDoc 0 (mkConstraints [recursiveRule]) =
      [recursiveIssueAt ["properties", "a"], recursiveIssueAt ["properties", "b"]] ∧
    ((validateSchemaConstraints doubleRefDoc 0 (mkConstraints [recursiveRule])).filter
      (fun iss => iss.feature == "recursive")).length = 2 := ⟨rfl, rfl⟩

/-- Claim C5 (amended): when the rule set (without custom validators) marks
`recursive` unsupported, the `recursive` issues of a traversal are exactly
one per re-encounter, at the re-encounter's path, in traversal order; in
particular a document whose traversal re-encounters a node exactly once —
directly self-referential or cyclic through `items` — yields exactly one
`recursive` issue located at the first re-encountered path. -/
theorem c5_recursive_issue_per_reencounter :
    (∀ (store : SchemaStore) (rootId : Nat) (rules : List ConstraintRule)
      (p m : String),
      isFeatureUnsupported "recursive" rules none = true →
      (validateSchemaConstraints store rootId ⟨p, m, rules, [], none⟩).filter
        (fun iss => iss.feature == "recursive") =
        (reencountersOf store rootId ⟨p, m, rules, [], none⟩).map recursiveIssueAt) ∧
    validateSchemaConstraints selfRefDoc 0 (mkConstraints [recursiveRule]) =
      [recursiveIssueAt ["properties", "self"]] ∧
    reencountersOf selfRefDoc 0 (mkConstraints [recursiveRule]) =
      [["properties", "self"]] ∧
    validateSchemaConstraints itemsCycleDoc 0 (mkConstraints [recursiveRule]) =
      [recursiveIssueAt ["items", "items"]] := by
  refine ⟨?_, rfl, rfl, rfl⟩
  intro store rootId rules p m hru
  set cons : ResolvedConstraints := ⟨p, m, rules, [], none⟩ with hcons
  cases hrun : runTraversal store rootId cons with
  | none =>
    rw [validateSchemaConstraints, reencountersOf, hrun]
    rfl
  | some st' =>
    rw [validateSchemaConstraints, reencountersOf, hrun]
    show st'.issues.filter (fun iss => iss.feature == "recursive") =
      st'.reencounters.map recursiveIssueAt
    rw [runTraversal] at hrun
    obtain ⟨dr, hre, hfil⟩ :=
      traverse_recFilter store cons rfl (store.length + 1) rootId [] true
        initialState st' hru hrun
    rw [hfil, hre]
    rfl

/-- Witness for C5: the amended bijection instantiated on the directly
self-referential document. -/
theorem c5_recursive_issue_per_reencounter_witness :
    (validateSchemaConstraints selfRefDoc 0 (mkConstraints [recursiveRule])).filter
      (fun iss => iss.feature == "recursive") =
      (reencountersOf selfRefDoc 0 (mkConstraints [recursiveRule])).map
        recursiveIssueAt :=
  c5_recursive_issue_per_reencounter.1 selfRefDoc 0 [recursiveRule]
    "provider" "model" (by decide)

end AiAssertSchema
